import Mathlib

/-!
# Verification of the simple-redis RESP codec and command layer

A shallow embedding of the `02-simple-redis` repository: the RESP frame
model, its two decode strategies (the direct per-type decode of
`src/resp/bulk_string.rs` / `src/resp/array.rs`, and the recursive-descent
parser of `src/respv2/parser.rs`), and the command layer of `src/cmd/`.

Bytes are modelled as `List Nat` (each element an octet value). Rust
`String`s are byte lists as well (UTF-8). Machine integers (`i64`/`isize`)
are modelled as `Int` with explicit range checks where the Rust code's
parsing enforces them. Recursive parsers take an explicit fuel argument
(first argument, structurally decreasing) so that every definition is
kernel-computable; entry points supply `input.length + 1` fuel.

Parts of the repository that the claims depend on but whose source files
are not in `src/` (the `RespFrame` dispatch, `parse_length_isize`,
`calc_total_length`, the non-BulkString/Array direct decoders, the
`respv2` decode wrapper, the `Get`/`Set`/`HGet`/`HSet`/`HGetAll`/`HMGet`
constructors and the `Backend` store) are modelled from the spec; each
such definition carries a doc comment starting `Modelled from the spec:`.
-/

namespace SimpleRedis

/-- The byte pair `\r\n`. -/
def crlf : List Nat := [13, 10]

/-- Index of the first occurrence of `\r\n` in a byte list, if any. -/
def findCrlf : List Nat → Option Nat
  | [] => none
  | a :: rest =>
      if a = 13 ∧ rest.head? = some 10 then some 0 else (findCrlf rest).map (· + 1)

/-- A byte list with no embedded `\r\n`. -/
def crlfFree (s : List Nat) : Prop := findCrlf s = none

instance (s : List Nat) : Decidable (crlfFree s) := by
  unfold crlfFree; infer_instance

/-- `p` is a prefix of `l` (written out to keep the development
self-contained). -/
def ListPre (p l : List Nat) : Prop := ∃ t, p ++ t = l

/-- ASCII decimal digit test. -/
def isDigitB (b : Nat) : Bool := 48 ≤ b && b ≤ 57

/-- Numeric value of a digit string (most significant first). -/
def natVal (ds : List Nat) : Nat := ds.foldl (fun a d => a * 10 + (d - 48)) 0

/-- ASCII decimal digits of `n`, most significant first.  The first
argument is fuel (any value `> n` computes the digits). -/
def natDigitsAux : Nat → Nat → List Nat
  | 0, _ => []
  | fuel + 1, n => if n < 10 then [48 + n] else natDigitsAux fuel (n / 10) ++ [48 + n % 10]

/-- ASCII decimal representation of a natural number. -/
def natDigits (n : Nat) : List Nat := natDigitsAux (n + 1) n

/-- ASCII decimal representation of an integer, `-` sign for negatives
(as produced by Rust's integer `Display`). -/
def intRepr (i : Int) : List Nat :=
  if i < 0 then 45 :: natDigits i.natAbs else natDigits i.toNat

/-- `i64::MAX`. -/
def maxI64 : Nat := 9223372036854775807

/-- Parse an optionally signed ASCII decimal with 64-bit signed bounds,
as Rust's `i64`/`isize` `FromStr` does; `none` on malformed input or
overflow. -/
def parseIntB (s : List Nat) : Option Int :=
  match s with
  | [] => none
  | a :: ds =>
      if a = 43 then
        if ds ≠ [] ∧ ds.all isDigitB = true ∧ natVal ds ≤ maxI64 then some (natVal ds) else none
      else if a = 45 then
        if ds ≠ [] ∧ ds.all isDigitB = true ∧ natVal ds ≤ maxI64 + 1 then
          some (-(natVal ds : Int))
        else none
      else
        if (a :: ds).all isDigitB = true ∧ natVal (a :: ds) ≤ maxI64 then
          some (natVal (a :: ds))
        else none

/-- The RESP frame value type, mirroring the Rust `RespFrame` enum.
`simpleString`/`simpleError` texts and map keys are byte lists; `bulkString`
and `array` distinguish null (`none`) from empty (`some []`); `double`
carries the decimal token of the `f64` payload (the floating-point value
itself is outside the embedding; no settled claim depends on it); `map`
is the `BTreeMap` contents as a key-sorted association list. -/
inductive RespFrame where
  | simpleString (s : List Nat)
  | simpleError (s : List Nat)
  | integer (i : Int)
  | bulkString (b : Option (List Nat))
  | array (a : Option (List RespFrame))
  | null
  | boolean (b : Bool)
  | double (tok : List Nat)
  | map (m : List (List Nat × RespFrame))

/-- Strict lexicographic byte order (Rust `String`/`Vec<u8>` `Ord`),
used by the `BTreeMap` model. -/
def keyLt : List Nat → List Nat → Bool
  | [], [] => false
  | [], _ :: _ => true
  | _ :: _, [] => false
  | a :: as_, b :: bs => if a < b then true else if b < a then false else keyLt as_ bs

/-- `BTreeMap::insert` on the sorted association list: replaces the value
at an existing key, otherwise inserts in sorted position. -/
def btInsert (k : List Nat) (v : RespFrame) :
    List (List Nat × RespFrame) → List (List Nat × RespFrame)
  | [] => [(k, v)]
  | (k', v') :: rest =>
      if keyLt k k' then (k, v) :: (k', v') :: rest
      else if k = k' then (k, v) :: rest
      else (k', v') :: btInsert k v rest

mutual

/-- `RespEncode::encode`: the canonical wire form of a frame.  The
`bulkString` and `array` cases transcribe `src/resp/bulk_string.rs` and
`src/resp/array.rs`; the remaining cases follow the wire grammar in the
spec (their source files are not under `src/`). -/
def encodeFrame : RespFrame → List Nat
  | .simpleString s => 43 :: s ++ crlf
  | .simpleError s => 45 :: s ++ crlf
  | .integer i => 58 :: intRepr i ++ crlf
  | .bulkString (some d) => 36 :: natDigits d.length ++ crlf ++ d ++ crlf
  | .bulkString none => [36, 45, 49, 13, 10]
  | .array (some fs) => 42 :: natDigits fs.length ++ crlf ++ encList fs
  | .array none => [42, 45, 49, 13, 10]
  | .null => [95, 13, 10]
  | .boolean true => [35, 116, 13, 10]
  | .boolean false => [35, 102, 13, 10]
  | .double tok => 44 :: tok ++ crlf
  | .map m => 37 :: natDigits (2 * m.length) ++ crlf ++ encPairs m

/-- Concatenated encodings of a frame sequence (array elements). -/
def encList : List RespFrame → List Nat
  | [] => []
  | f :: fs => encodeFrame f ++ encList fs

/-- Concatenated encodings of map entries: each pair is `+<key>\r\n`
followed by the value frame. -/
def encPairs : List (List Nat × RespFrame) → List Nat
  | [] => []
  | (k, v) :: rest => 43 :: k ++ crlf ++ encodeFrame v ++ encPairs rest

end

mutual

/-- Constructibility of a frame value per the spec's data model:
`SimpleString`/`SimpleError` texts, map keys and double tokens have no
embedded CRLF, container lengths fit in `i64` (as Rust vectors do), and
maps are non-empty (the grammar requires a pair count `> 0`). -/
def validFrame : RespFrame → Bool
  | .simpleString s => findCrlf s = none
  | .simpleError s => findCrlf s = none
  | .integer _ => true
  | .bulkString (some d) => d.length ≤ maxI64
  | .bulkString none => true
  | .array (some fs) => fs.length ≤ maxI64 && validList fs
  | .array none => true
  | .null => true
  | .boolean _ => true
  | .double tok => findCrlf tok = none
  | .map m => 2 * m.length ≤ maxI64 && m.length ≠ 0 && validPairs m

def validList : List RespFrame → Bool
  | [] => true
  | f :: fs => validFrame f && validList fs

def validPairs : List (List Nat × RespFrame) → Bool
  | [] => true
  | (k, v) :: rest => (findCrlf k = none : Bool) && validFrame v && validPairs rest

end

/-! ## Direct decode strategy (`src/resp/`)

`RespError` with error message strings elided (no claim inspects the
message text). -/

inductive RespError where
  | invalidFrame
  | notComplete
deriving DecidableEq

/-- Modelled from the spec: `parse_length_isize` (in `resp/mod.rs`, not
under `src/`).  Scans the buffer for the first CRLF; `NotComplete` when
none is present yet; on success checks the prefix byte, parses the bytes
between prefix and CRLF as a signed 64-bit length, and rejects a length
below `-1` with `InvalidFrame` (the per-type length rule of the spec's
scan contract).  Returns the CRLF position and the length. -/
def parseLenIsize (buf : List Nat) (pfx : Nat) : Except RespError (Nat × Int) :=
  match findCrlf buf with
  | none => .error .notComplete
  | some e =>
      if buf.head? = some pfx then
        match parseIntB ((buf.drop 1).take (e - 1)) with
        | none => .error .invalidFrame
        | some v => if v < -1 then .error .invalidFrame else .ok (e, v)
      else .error .invalidFrame

/-- Jobs for the direct-strategy length scanner: a single frame, a counted
sequence of frames (array body), or a counted sequence of key/value pairs
(map body). -/
inductive ScanJob where
  | one (buf : List Nat)
  | many (count : Nat) (buf : List Nat)
  | pairs (count : Nat) (buf : List Nat)

/-- Modelled from the spec: the direct strategy's length scan
(`RespFrame::expect_length` dispatch and `calc_total_length`, in
`resp/mod.rs`, not under `src/`), together with the `expect_length`
implementations of `src/resp/bulk_string.rs` and `src/resp/array.rs`
which are transcribed in the `36` (`$`) and `42` (`*`) branches.

`.one buf` returns the total byte length the next frame will occupy
(for a BulkString this is computed from the header alone, exactly as
`BulkString::expect_length` does, even if the data bytes have not
arrived). `.many`/`.pairs` scan a container body and fail with
`NotComplete` when a nested frame claims more bytes than are available,
per the spec's scan contract.  The first argument is fuel; fuel
exhaustion reports `NotComplete`. -/
def scanGo : Nat → ScanJob → Except RespError Nat
  | 0, _ => .error .notComplete
  | fuel + 1, job =>
    match job with
    | .one buf =>
      match buf with
      | [] => .error .notComplete
      | b :: rest =>
        if b = 43 ∨ b = 45 ∨ b = 58 ∨ b = 44 then
          match findCrlf rest with
          | none => .error .notComplete
          | some i => .ok (1 + i + 2)
        else if b = 95 then .ok 3
        else if b = 35 then .ok 4
        else if b = 36 then
          match parseLenIsize buf 36 with
          | .error e => .error e
          | .ok (e, len) =>
              if len = -1 then .ok (e + 2) else .ok (e + 2 + len.toNat + 2)
        else if b = 42 then
          match parseLenIsize buf 42 with
          | .error e => .error e
          | .ok (e, len) =>
              if len = -1 then .ok (e + 2)
              else
                match scanGo fuel (.many len.toNat (buf.drop (e + 2))) with
                | .error e2 => .error e2
                | .ok m => .ok (e + 2 + m)
        else if b = 37 then
          match parseLenIsize buf 37 with
          | .error e => .error e
          | .ok (e, len) =>
              if len ≤ 0 ∨ ¬ 2 ∣ len then .error .invalidFrame
              else
                match scanGo fuel (.pairs (len / 2).toNat (buf.drop (e + 2))) with
                | .error e2 => .error e2
                | .ok m => .ok (e + 2 + m)
        else .error .invalidFrame
    | .many 0 _ => .ok 0
    | .many (count + 1) data =>
      match scanGo fuel (.one data) with
      | .error e => .error e
      | .ok l =>
          if data.length < l then .error .notComplete
          else
            match scanGo fuel (.many count (data.drop l)) with
            | .error e => .error e
            | .ok r => .ok (l + r)
    | .pairs 0 _ => .ok 0
    | .pairs (count + 1) data =>
      match data with
      | [] => .error .notComplete
      | b :: rest =>
        if b = 43 then
          match findCrlf rest with
          | none => .error .notComplete
          | some i =>
            let kl := 1 + i + 2
            match scanGo fuel (.one (data.drop kl)) with
            | .error e => .error e
            | .ok l =>
                if (data.drop kl).length < l then .error .notComplete
                else
                  match scanGo fuel (.pairs count ((data.drop kl).drop l)) with
                  | .error e => .error e
                  | .ok r => .ok (kl + l + r)
        else .error .invalidFrame

/-- `BulkString::decode` from `src/resp/bulk_string.rs`, transcribed:
parse the length header, return null for `-1`, signal `NotComplete`
(leaving the buffer untouched) when fewer than `len + 2` payload bytes
are buffered, otherwise consume header plus `len + 2` bytes and return
the first `len` payload bytes.  The result pairs the decode outcome with
the buffer state after the call. -/
def BulkString_decode (buf : List Nat) :
    Except RespError (Option (List Nat)) × List Nat :=
  match parseLenIsize buf 36 with
  | .error e => (.error e, buf)
  | .ok (e, len) =>
      if len = -1 then (.ok none, buf.drop (e + 2))
      else
        let lenN := len.toNat
        let remained := buf.drop (e + 2)
        if remained.length < lenN + 2 then (.error .notComplete, buf)
        else (.ok (some (remained.take lenN)), remained.drop (lenN + 2))

/-- Jobs for the direct-strategy decoder: one frame, an array body of
`count` frames (with accumulator), or a map body of `count` pairs. -/
inductive DecJob where
  | one (buf : List Nat)
  | elems (count : Nat) (acc : List RespFrame) (buf : List Nat)
  | kvs (count : Nat) (acc : List (List Nat × RespFrame)) (buf : List Nat)

/-- Results of the jobs of `decodeGo`. -/
inductive DecRes where
  | fr (f : RespFrame)
  | frs (fs : List RespFrame)
  | kvm (m : List (List Nat × RespFrame))

/-- The direct decode strategy.  The `36` (`$`) branch is
`BulkString::decode` (`src/resp/bulk_string.rs`) and the `42` (`*`)
branch is `RespArray::decode` (`src/resp/array.rs`), both transcribed:
they first run the length computation (`calc_total_length` for arrays),
return `NotComplete` with the buffer untouched when the buffer is
shorter than the total, and only then consume bytes.  The remaining
branches are modelled from the spec (their `RespDecode` impls are not
under `src/`): each decodes exactly the wire grammar of its type and
signals `NotComplete` without consuming when the frame is not complete
yet.  Returns the outcome together with the buffer state after the
call; the first argument is fuel (exhaustion reports `NotComplete`). -/
def decodeGo : Nat → DecJob → Except RespError DecRes × List Nat
  | 0, job => (.error .notComplete, match job with
      | .one b => b | .elems _ _ b => b | .kvs _ _ b => b)
  | fuel + 1, job =>
    match job with
    | .one buf =>
      match buf with
      | [] => (.error .notComplete, buf)
      | b :: rest =>
        if b = 43 then
          match findCrlf rest with
          | none => (.error .notComplete, buf)
          | some i => (.ok (.fr (.simpleString (rest.take i))), buf.drop (1 + i + 2))
        else if b = 45 then
          match findCrlf rest with
          | none => (.error .notComplete, buf)
          | some i => (.ok (.fr (.simpleError (rest.take i))), buf.drop (1 + i + 2))
        else if b = 58 then
          match findCrlf rest with
          | none => (.error .notComplete, buf)
          | some i =>
            match parseIntB (rest.take i) with
            | none => (.error .invalidFrame, buf)
            | some v => (.ok (.fr (.integer v)), buf.drop (1 + i + 2))
        else if b = 44 then
          match findCrlf rest with
          | none => (.error .notComplete, buf)
          | some i => (.ok (.fr (.double (rest.take i))), buf.drop (1 + i + 2))
        else if b = 95 then
          if buf.length < 3 then (.error .notComplete, buf)
          else if buf.take 3 = [95, 13, 10] then (.ok (.fr .null), buf.drop 3)
          else (.error .invalidFrame, buf)
        else if b = 35 then
          if buf.length < 4 then (.error .notComplete, buf)
          else if buf.take 4 = [35, 116, 13, 10] then (.ok (.fr (.boolean true)), buf.drop 4)
          else if buf.take 4 = [35, 102, 13, 10] then (.ok (.fr (.boolean false)), buf.drop 4)
          else (.error .invalidFrame, buf)
        else if b = 36 then
          match BulkString_decode buf with
          | (.error e, buf') => (.error e, buf')
          | (.ok d, buf') => (.ok (.fr (.bulkString d)), buf')
        else if b = 42 then
          match parseLenIsize buf 42 with
          | .error e => (.error e, buf)
          | .ok (e, len) =>
              if len = -1 then (.ok (.fr (.array none)), buf.drop (e + 2))
              else
                match scanGo fuel (.many len.toNat (buf.drop (e + 2))) with
                | .error e2 => (.error e2, buf)
                | .ok m =>
                    if buf.length < e + 2 + m then (.error .notComplete, buf)
                    else decodeGo fuel (.elems len.toNat [] (buf.drop (e + 2)))
        else if b = 37 then
          match parseLenIsize buf 37 with
          | .error e => (.error e, buf)
          | .ok (e, len) =>
              if len ≤ 0 ∨ ¬ 2 ∣ len then (.error .invalidFrame, buf)
              else
                match scanGo fuel (.pairs (len / 2).toNat (buf.drop (e + 2))) with
                | .error e2 => (.error e2, buf)
                | .ok m =>
                    if buf.length < e + 2 + m then (.error .notComplete, buf)
                    else decodeGo fuel (.kvs (len / 2).toNat [] (buf.drop (e + 2)))
        else (.error .invalidFrame, buf)
    | .elems 0 acc buf => (.ok (.fr (.array (some acc.reverse))), buf)
    | .elems (count + 1) acc buf =>
      match decodeGo fuel (.one buf) with
      | (.ok (.fr f), buf') => decodeGo fuel (.elems count (f :: acc) buf')
      | (.ok r, buf') => (.ok r, buf')
      | (.error e, buf') => (.error e, buf')
    | .kvs 0 acc buf => (.ok (.fr (.map (acc.reverse.foldl (fun m kv => btInsert kv.1 kv.2 m) []))), buf)
    | .kvs (count + 1) acc buf =>
      match buf with
      | [] => (.error .notComplete, buf)
      | b :: rest =>
        if b = 43 then
          match findCrlf rest with
          | none => (.error .notComplete, buf)
          | some i =>
            let k := rest.take i
            match decodeGo fuel (.one (buf.drop (1 + i + 2))) with
            | (.ok (.fr v), buf') => decodeGo fuel (.kvs count ((k, v) :: acc) buf')
            | (.ok r, buf') => (.ok r, buf')
            | (.error e, buf') => (.error e, buf')
        else (.error .invalidFrame, buf)

/-- Modelled from the spec: the `RespFrame::decode` entry point of the
direct strategy (dispatch on the next byte, in `resp/mod.rs`, not under
`src/`).  Attempts to decode exactly one frame from the buffered bytes,
returning the outcome and the buffer state after the call. -/
def RespFrame_decode (buf : List Nat) : Except RespError DecRes × List Nat :=
  decodeGo (buf.length + 1) (.one buf)

/-! ## Recursive-descent strategy (`src/respv2/parser.rs`)

The winnow parsers are modelled as functions from the input byte list to
`Except PErr (result × remaining input)`.  `PErr` keeps winnow's
distinction between a backtrackable error (`ErrMode::Backtrack`, which
`alt` recovers from) and a hard error (`ErrMode::Cut`, produced by
`err_cut`); error payloads are elided. -/

inductive PErr where
  | backtrack
  | cut
deriving DecidableEq

/-- `terminated(take_until(0.., CRLF), CRLF)`: everything up to the first
CRLF, consuming the CRLF as well; backtrack when no CRLF is buffered. -/
def takeToCrlf (input : List Nat) : Except PErr (List Nat × List Nat) :=
  match findCrlf input with
  | none => .error .backtrack
  | some i => .ok (input.take i, (input.drop i).drop 2)

/-- `parse_string`: `take_until` + CRLF, `String::from_utf8_lossy`.  The
lossy conversion is the identity on valid UTF-8; the byte list is kept
as-is (every use in the settled claims is on valid UTF-8). -/
def parse_string (input : List Nat) : Except PErr (List Nat × List Nat) :=
  takeToCrlf input

/-- The `integer` parser: optional `+`/`-` sign, `digit1` (maximal run of
ASCII digits, at least one), `parse_to::<i64>` (fails on overflow, i.e.
a digit run exceeding `i64::MAX`), terminated by CRLF; `sign * v`. -/
def integerV2 (input : List Nat) : Except PErr (Int × List Nat) :=
  let sgn : Int := match input.head? with | some 45 => -1 | _ => 1
  let rest := match input.head? with
    | some 43 => input.drop 1
    | some 45 => input.drop 1
    | _ => input
  let ds := rest.takeWhile isDigitB
  if ds = [] then .error .backtrack
  else if natVal ds ≤ maxI64 then
    match rest.drop ds.length with
    | 13 :: 10 :: r => .ok (sgn * (natVal ds : Int), r)
    | _ => .error .backtrack
  else .error .backtrack

/-- `take(len)` terminated by CRLF. -/
def takeCrlf (len : Nat) (input : List Nat) : Except PErr (List Nat × List Nat) :=
  if input.length < len then .error .backtrack
  else
    match input.drop len with
    | 13 :: 10 :: r => .ok (input.take len, r)
    | _ => .error .backtrack

/-- `null_bulk_string`: the literal `-1\r\n` (after the `$` tag). -/
def null_bulk_string (input : List Nat) : Except PErr (Option (List Nat) × List Nat) :=
  match input with
  | 45 :: 49 :: 13 :: 10 :: r => .ok (none, r)
  | _ => .error .backtrack

/-- `bulk_string`: parses the length; returns the empty bulk string
immediately for length 0 (without consuming the trailing CRLF, exactly
as the source does); `err_cut` for a negative length; otherwise takes
`len` bytes terminated by CRLF. -/
def bulk_string (input : List Nat) : Except PErr (Option (List Nat) × List Nat) :=
  match integerV2 input with
  | .error e => .error e
  | .ok (len, r) =>
      if len = 0 then .ok (some [], r)
      else if len < 0 then .error .cut
      else
        match takeCrlf len.toNat r with
        | .error e => .error e
        | .ok (data, r2) => .ok (some data, r2)

/-- `bulk_string_len`: the length-only scan for `$`; accepts 0 and -1
immediately (consuming only the header), `err_cut` on other negatives,
otherwise skips `len` bytes plus CRLF. -/
def bulk_string_len (input : List Nat) : Except PErr (Unit × List Nat) :=
  match integerV2 input with
  | .error e => .error e
  | .ok (len, r) =>
      if len = 0 ∨ len = -1 then .ok ((), r)
      else if len < 0 then .error .cut
      else
        match takeCrlf len.toNat r with
        | .error e => .error e
        | .ok (_, r2) => .ok ((), r2)

/-- `null_array`: the literal `-1\r\n` (after the `*` tag). -/
def null_array (input : List Nat) : Except PErr (Option (List RespFrame) × List Nat) :=
  match input with
  | 45 :: 49 :: 13 :: 10 :: r => .ok (none, r)
  | _ => .error .backtrack

/-- `boolean`: `alt((b't', b'f'))` — a single byte, with no CRLF
consumption (exactly as the source does). -/
def booleanV2 (input : List Nat) : Except PErr (Bool × List Nat) :=
  match input with
  | 116 :: r => .ok (true, r)
  | 102 :: r => .ok (false, r)
  | _ => .error .backtrack

/-- Characters winnow's `float` recognizer accepts: sign, digits, dot,
exponent marker. -/
def isFloatChar (b : Nat) : Bool :=
  isDigitB b || b = 43 || b = 45 || b = 46 || b = 101 || b = 69

/-- `double`: `terminated(float, CRLF)`.  The `f64` value is kept as its
decimal token (floating point is outside the embedding; winnow's float
recognizer is approximated as a non-empty maximal run of float
characters; no settled claim exercises this branch). -/
def doubleV2 (input : List Nat) : Except PErr (List Nat × List Nat) :=
  let tok := input.takeWhile isFloatChar
  if tok = [] then .error .backtrack
  else
    match input.drop tok.length with
    | 13 :: 10 :: r => .ok (tok, r)
    | _ => .error .backtrack

/-- Jobs of the recursive-descent parser: one frame (`parse_frame`), the
body loop of `array`, the body loop of `map`, one frame length
(`parse_frame_len`), the body loop of `array_len`, the body loop of
`map_len`. -/
inductive V2Job where
  | fr (buf : List Nat)
  | frs (count : Nat) (acc : List RespFrame) (buf : List Nat)
  | kvp (count : Nat) (acc : List (List Nat × RespFrame)) (buf : List Nat)
  | len (buf : List Nat)
  | lens (count : Nat) (buf : List Nat)
  | klens (count : Nat) (buf : List Nat)

/-- Results of the jobs of `v2Go`. -/
inductive V2Res where
  | fr (f : RespFrame)
  | frs (fs : List RespFrame)
  | kvp (m : List (List Nat × RespFrame))
  | done

/-- The recursive-descent parser of `src/respv2/parser.rs`, transcribed.
`.fr` is `parse_frame` (dispatch on the tag byte consumed by `any`, with
`alt` over the null literal and the length-prefixed form for `$` and
`*`, and `fail` — a backtrack error — on an unrecognized tag); `.len` is
`parse_frame_len` (the simple types all use
`terminated(take_until(0.., CRLF), CRLF)`).  `.frs`/`.kvp`/`.lens`/
`.klens` are the `for` loops of `array`, `map`, `array_len` and
`map_len`.  The first argument is fuel (each nested frame recursion
decrements it; exhaustion reports a backtrack error; entry points supply
more fuel than any input can consume). -/
def v2Go : Nat → V2Job → Except PErr (V2Res × List Nat)
  | 0, _ => .error .backtrack
  | fuel + 1, job =>
    match job with
    | .fr buf =>
      match buf with
      | [] => .error .backtrack
      | b :: rest =>
        if b = 43 then
          match parse_string rest with
          | .error e => .error e
          | .ok (s, r) => .ok (.fr (.simpleString s), r)
        else if b = 45 then
          match parse_string rest with
          | .error e => .error e
          | .ok (s, r) => .ok (.fr (.simpleError s), r)
        else if b = 58 then
          match integerV2 rest with
          | .error e => .error e
          | .ok (v, r) => .ok (.fr (.integer v), r)
        else if b = 36 then
          match null_bulk_string rest with
          | .ok (d, r) => .ok (.fr (.bulkString d), r)
          | .error .cut => .error .cut
          | .error .backtrack =>
            match bulk_string rest with
            | .error e => .error e
            | .ok (d, r) => .ok (.fr (.bulkString d), r)
        else if b = 42 then
          match null_array rest with
          | .ok (a, r) => .ok (.fr (.array a), r)
          | .error .cut => .error .cut
          | .error .backtrack =>
            match integerV2 rest with
            | .error e => .error e
            | .ok (len, r) =>
                if len = 0 then .ok (.fr (.array (some [])), r)
                else if len < 0 then .error .cut
                else
                  match v2Go fuel (.frs len.toNat [] r) with
                  | .error e => .error e
                  | .ok (res, r2) => .ok (res, r2)
        else if b = 95 then
          match rest with
          | 13 :: 10 :: r => .ok (.fr .null, r)
          | _ => .error .backtrack
        else if b = 35 then
          match booleanV2 rest with
          | .error e => .error e
          | .ok (v, r) => .ok (.fr (.boolean v), r)
        else if b = 44 then
          match doubleV2 rest with
          | .error e => .error e
          | .ok (tok, r) => .ok (.fr (.double tok), r)
        else if b = 37 then
          match integerV2 rest with
          | .error e => .error e
          | .ok (len, r) =>
              if len ≤ 0 then .error .cut
              else
                match v2Go fuel (.kvp (len / 2).toNat [] r) with
                | .error e => .error e
                | .ok (res, r2) => .ok (res, r2)
        else .error .backtrack
    | .frs 0 acc buf => .ok (.fr (.array (some acc.reverse)), buf)
    | .frs (count + 1) acc buf =>
      match v2Go fuel (.fr buf) with
      | .error e => .error e
      | .ok (.fr f, r) => v2Go fuel (.frs count (f :: acc) r)
      | .ok (res, r) => .ok (res, r)
    | .kvp 0 acc buf =>
        .ok (.fr (.map (acc.reverse.foldl (fun m kv => btInsert kv.1 kv.2 m) [])), buf)
    | .kvp (count + 1) acc buf =>
      match buf with
      | 43 :: rest =>
        match parse_string rest with
        | .error e => .error e
        | .ok (k, r) =>
          match v2Go fuel (.fr r) with
          | .error e => .error e
          | .ok (.fr v, r2) => v2Go fuel (.kvp count ((k, v) :: acc) r2)
          | .ok (res, r2) => .ok (res, r2)
      | _ => .error .backtrack
    | .len buf =>
      match buf with
      | [] => .error .backtrack
      | b :: rest =>
        if b = 43 ∨ b = 45 ∨ b = 58 ∨ b = 95 ∨ b = 35 ∨ b = 44 then
          match takeToCrlf rest with
          | .error e => .error e
          | .ok (_, r) => .ok (.done, r)
        else if b = 36 then
          match bulk_string_len rest with
          | .error e => .error e
          | .ok (_, r) => .ok (.done, r)
        else if b = 42 then
          match integerV2 rest with
          | .error e => .error e
          | .ok (len, r) =>
              if len = 0 ∨ len = -1 then .ok (.done, r)
              else if len < 0 then .error .cut
              else v2Go fuel (.lens len.toNat r)
        else if b = 37 then
          match integerV2 rest with
          | .error e => .error e
          | .ok (len, r) =>
              if len ≤ 0 then .error .cut
              else v2Go fuel (.klens (len / 2).toNat r)
        else .error .backtrack
    | .lens 0 buf => .ok (.done, buf)
    | .lens (count + 1) buf =>
      match v2Go fuel (.len buf) with
      | .error e => .error e
      | .ok (_, r) => v2Go fuel (.lens count r)
    | .klens 0 buf => .ok (.done, buf)
    | .klens (count + 1) buf =>
      match takeToCrlf buf with
      | .error e => .error e
      | .ok (_, r) =>
        match v2Go fuel (.len r) with
        | .error e => .error e
        | .ok (_, r2) => v2Go fuel (.klens count r2)

/-- `parse_frame`: entry point of the recursive-descent parser.  (The
`.fr` job only ever produces `V2Res.fr` results; the final catch-all arm
is unreachable and present only to make the match total.) -/
def parse_frame (input : List Nat) : Except PErr (RespFrame × List Nat) :=
  match v2Go (input.length + 1) (.fr input) with
  | .error e => .error e
  | .ok (.fr f, r) => .ok (f, r)
  | .ok (_, r) => .ok (.null, r)

/-- `parse_frame_len`: the length-only scan; on success returns the
remaining (unconsumed) input. -/
def parse_frame_len (input : List Nat) : Except PErr (List Nat) :=
  match v2Go (input.length + 1) (.len input) with
  | .error e => .error e
  | .ok (_, r) => .ok r

/-- `parse_frame_length` from `src/respv2/parser.rs`, transcribed: runs
`parse_frame_len` and on success reports the number of consumed bytes
(the pointer difference); every error — including a hard `Cut` from the
inner scanners — is mapped to `RespError::NotComplete`. -/
def parse_frame_length (input : List Nat) : Except RespError Nat :=
  match parse_frame_len input with
  | .ok rem => .ok (input.length - rem.length)
  | .error _ => .error .notComplete

/-- Modelled from the spec: the respv2 decode wrapper (in
`respv2/mod.rs`, not under `src/`): the independent length-only scan is
used purely as a completeness pre-check before the real parse runs; its
errors propagate unchanged; a parse failure after a successful scan is a
malformed frame.  Returns the frame and the number of consumed bytes. -/
def respv2Decode (buf : List Nat) : Except RespError (RespFrame × Nat) :=
  match parse_frame_length buf with
  | .error e => .error e
  | .ok len =>
    match parse_frame (buf.take len) with
    | .ok (f, _) => .ok (f, len)
    | .error _ => .error .invalidFrame

/-! ## Command layer (`src/cmd/`)

`RespArray` is `Option (List RespFrame)` (the struct's single field);
its `Deref` target is the inner vector, or a shared empty vector for the
null array.  Rust `String`s are byte lists; error message payloads are
elided. -/

/-- `CommandError` (payload messages elided). -/
inductive CommandError where
  | invalidCommand
  | invalidArgument
  | respErr (e : RespError)
  | utf8Err
deriving DecidableEq

/-- The `Command` enum with each variant's fields. -/
inductive Command where
  | get (key : List Nat)
  | set (key : List Nat) (value : RespFrame)
  | hget (key field : List Nat)
  | hset (key field : List Nat) (value : RespFrame)
  | hgetall (key : List Nat) (sort : Bool)
  | hmget (key : List Nat) (fields : List (List Nat))
  | echo (message : List Nat)
  | sadd (key member : List Nat)
  | sismember (key member : List Nat)
  | unrecognized

/-- `Deref for RespArray`: the inner vector, or the shared empty vector
for a null array. -/
def arrList (a : Option (List RespFrame)) : List RespFrame := a.getD []

/-- `BulkString::as_ref` / `Deref`: the payload bytes, or the shared
empty vector for a null bulk string. -/
def bulkRef (b : Option (List Nat)) : List Nat := b.getD []

/-- `BulkString::get_data`: the payload, or `InvalidFrame` for null. -/
def getData (b : Option (List Nat)) : Except RespError (List Nat) :=
  match b with
  | some d => .ok d
  | none => .error .invalidFrame

/-- `u8::to_ascii_lowercase` mapped over the bytes. -/
def asciiLower (bs : List Nat) : List Nat :=
  bs.map fun b => if 65 ≤ b ∧ b ≤ 90 then b + 32 else b

/-- RFC 3629 UTF-8 validity, as checked by Rust's `String::from_utf8`. -/
def utf8Valid : List Nat → Bool
  | [] => true
  | b :: rest =>
    if b ≤ 127 then utf8Valid rest
    else if 194 ≤ b ∧ b ≤ 223 then
      match rest with
      | c1 :: r => (128 ≤ c1 && c1 ≤ 191) && utf8Valid r
      | _ => false
    else if b = 224 then
      match rest with
      | c1 :: c2 :: r => (160 ≤ c1 && c1 ≤ 191) && (128 ≤ c2 && c2 ≤ 191) && utf8Valid r
      | _ => false
    else if 225 ≤ b ∧ b ≤ 236 then
      match rest with
      | c1 :: c2 :: r => (128 ≤ c1 && c1 ≤ 191) && (128 ≤ c2 && c2 ≤ 191) && utf8Valid r
      | _ => false
    else if b = 237 then
      match rest with
      | c1 :: c2 :: r => (128 ≤ c1 && c1 ≤ 159) && (128 ≤ c2 && c2 ≤ 191) && utf8Valid r
      | _ => false
    else if 238 ≤ b ∧ b ≤ 239 then
      match rest with
      | c1 :: c2 :: r => (128 ≤ c1 && c1 ≤ 191) && (128 ≤ c2 && c2 ≤ 191) && utf8Valid r
      | _ => false
    else if b = 240 then
      match rest with
      | c1 :: c2 :: c3 :: r =>
          (144 ≤ c1 && c1 ≤ 191) && (128 ≤ c2 && c2 ≤ 191) && (128 ≤ c3 && c3 ≤ 191) && utf8Valid r
      | _ => false
    else if 241 ≤ b ∧ b ≤ 243 then
      match rest with
      | c1 :: c2 :: c3 :: r =>
          (128 ≤ c1 && c1 ≤ 191) && (128 ≤ c2 && c2 ≤ 191) && (128 ≤ c3 && c3 ≤ 191) && utf8Valid r
      | _ => false
    else if b = 244 then
      match rest with
      | c1 :: c2 :: c3 :: r =>
          (128 ≤ c1 && c1 ≤ 143) && (128 ≤ c2 && c2 ≤ 191) && (128 ≤ c3 && c3 ≤ 191) && utf8Valid r
      | _ => false
    else false

/-- `String::from_utf8` on the command-layer byte payloads; the
`FromUtf8Error` maps into `CommandError::Utf8Error`. -/
def rustFromUtf8 (bs : List Nat) : Except CommandError (List Nat) :=
  if utf8Valid bs then .ok bs else .error .utf8Err

/-- `validate_command_name`: for each expected name token, the element at
that index must be a non-null BulkString whose ASCII-lowercased bytes
equal the token; otherwise `InvalidCommand`.  (Callers have already
checked the length, so the index is in bounds; out-of-bounds reads the
`Null` frame placeholder.) -/
def validate_command_name (v : Option (List RespFrame)) (names : List (List Nat)) :
    Except CommandError Unit :=
  go (arrList v) names
where
  go (items : List RespFrame) : List (List Nat) → Except CommandError Unit
    | [] => .ok ()
    | name :: more =>
      match items.headD .null with
      | .bulkString cmd =>
          if cmd = none then .error .invalidCommand
          else if asciiLower (bulkRef cmd) ≠ name then .error .invalidCommand
          else go (items.drop 1) more
      | _ => .error .invalidCommand

/-- `validate_command`: exact arity `names.length + n_args`, then the
name check. -/
def validate_command (v : Option (List RespFrame)) (names : List (List Nat)) (nArgs : Nat) :
    Except CommandError Unit :=
  if (arrList v).length ≠ nArgs + names.length then .error .invalidArgument
  else validate_command_name v names

/-- `validate_command_at_least`: arity at least `names.length + n_args`,
then the name check. -/
def validate_command_at_least (v : Option (List RespFrame)) (names : List (List Nat))
    (nArgs : Nat) : Except CommandError Unit :=
  if (arrList v).length < nArgs + names.length then .error .invalidArgument
  else validate_command_name v names

/-- `extract_args`: `InvalidArgument` on a null array, otherwise the
elements from `start` on. -/
def extract_args (v : Option (List RespFrame)) (start : Nat) :
    Except CommandError (List RespFrame) :=
  match v with
  | none => .error .invalidArgument
  | some items => .ok (items.drop start)

/-- `Echo::try_from` (`src/cmd/echo.rs`): validate `echo` with one
argument; the argument must be a BulkString whose payload (`get_data`,
`InvalidFrame` on null) converts to valid UTF-8. -/
def echoTryFrom (v : Option (List RespFrame)) : Except CommandError Command := do
  let _ ← validate_command v [[101, 99, 104, 111]] 1
  let args ← extract_args v 1
  match args.head? with
  | some (.bulkString key) =>
      match getData key with
      | .error e => .error (.respErr e)
      | .ok d => do
          let msg ← rustFromUtf8 d
          .ok (.echo msg)
  | _ => .error .invalidArgument

/-- `SAdd::try_from` (`src/cmd/set.rs`): validate `sadd` with two
arguments, both BulkStrings whose payloads convert to valid UTF-8.
(The source feeds each BulkString's inner field to `String::from_utf8`;
a null payload is modelled as the `InvalidFrame` error, as `get_data`
reports.) -/
def saddTryFrom (v : Option (List RespFrame)) : Except CommandError Command := do
  let _ ← validate_command v [[115, 97, 100, 100]] 2
  let args ← extract_args v 1
  match args.head?, (args.drop 1).head? with
  | some (.bulkString key), some (.bulkString member) =>
      match getData key, getData member with
      | .ok k, .ok m => do
          let k' ← rustFromUtf8 k
          let m' ← rustFromUtf8 m
          .ok (.sadd k' m')
      | .error e, _ => .error (.respErr e)
      | _, .error e => .error (.respErr e)
  | _, _ => .error .invalidArgument

/-- `SisMember::try_from` (`src/cmd/set.rs`): validate `sismember` with
two arguments, both BulkStrings whose payloads convert to valid UTF-8. -/
def sismemberTryFrom (v : Option (List RespFrame)) : Except CommandError Command := do
  let _ ← validate_command v [[115, 105, 115, 109, 101, 109, 98, 101, 114]] 2
  let args ← extract_args v 1
  match args.head?, (args.drop 1).head? with
  | some (.bulkString key), some (.bulkString member) =>
      match getData key, getData member with
      | .ok k, .ok m => do
          let k' ← rustFromUtf8 k
          let m' ← rustFromUtf8 m
          .ok (.sismember k' m')
      | .error e, _ => .error (.respErr e)
      | _, .error e => .error (.respErr e)
  | _, _ => .error .invalidArgument

/-- Modelled from the spec: `Get::try_from` (`src/cmd/map.rs`, not under
`src/`): name `get`, one argument, a non-null UTF-8 BulkString key. -/
def getTryFrom (v : Option (List RespFrame)) : Except CommandError Command := do
  let _ ← validate_command v [[103, 101, 116]] 1
  let args ← extract_args v 1
  match args.head? with
  | some (.bulkString key) =>
      match getData key with
      | .error e => .error (.respErr e)
      | .ok d => do
          let k ← rustFromUtf8 d
          .ok (.get k)
  | _ => .error .invalidArgument

/-- Modelled from the spec: `Set::try_from` (`src/cmd/map.rs`, not under
`src/`): name `set`, two arguments — a UTF-8 BulkString key and a raw
value frame. -/
def setTryFrom (v : Option (List RespFrame)) : Except CommandError Command := do
  let _ ← validate_command v [[115, 101, 116]] 2
  let args ← extract_args v 1
  match args.head?, (args.drop 1).head? with
  | some (.bulkString key), some value =>
      match getData key with
      | .error e => .error (.respErr e)
      | .ok d => do
          let k ← rustFromUtf8 d
          .ok (.set k value)
  | _, _ => .error .invalidArgument

/-- Modelled from the spec: `HGet::try_from` (`src/cmd/hmap.rs`, not
under `src/`): name `hget`, two UTF-8 BulkString arguments. -/
def hgetTryFrom (v : Option (List RespFrame)) : Except CommandError Command := do
  let _ ← validate_command v [[104, 103, 101, 116]] 2
  let args ← extract_args v 1
  match args.head?, (args.drop 1).head? with
  | some (.bulkString key), some (.bulkString field) =>
      match getData key, getData field with
      | .ok k, .ok f => do
          let k' ← rustFromUtf8 k
          let f' ← rustFromUtf8 f
          .ok (.hget k' f')
      | .error e, _ => .error (.respErr e)
      | _, .error e => .error (.respErr e)
  | _, _ => .error .invalidArgument

/-- Modelled from the spec: `HSet::try_from` (`src/cmd/hmap.rs`, not
under `src/`): name `hset`, three arguments — key, field, raw value. -/
def hsetTryFrom (v : Option (List RespFrame)) : Except CommandError Command := do
  let _ ← validate_command v [[104, 115, 101, 116]] 3
  let args ← extract_args v 1
  match args.head?, (args.drop 1).head?, (args.drop 2).head? with
  | some (.bulkString key), some (.bulkString field), some value =>
      match getData key, getData field with
      | .ok k, .ok f => do
          let k' ← rustFromUtf8 k
          let f' ← rustFromUtf8 f
          .ok (.hset k' f' value)
      | .error e, _ => .error (.respErr e)
      | _, .error e => .error (.respErr e)
  | _, _, _ => .error .invalidArgument

/-- Modelled from the spec: `HGetAll::try_from` (`src/cmd/hmap.rs`, not
under `src/`): name `hgetall`, one UTF-8 BulkString key; the sort flag
is not settable from the wire and defaults to false. -/
def hgetallTryFrom (v : Option (List RespFrame)) : Except CommandError Command := do
  let _ ← validate_command v [[104, 103, 101, 116, 97, 108, 108]] 1
  let args ← extract_args v 1
  match args.head? with
  | some (.bulkString key) =>
      match getData key with
      | .error e => .error (.respErr e)
      | .ok d => do
          let k ← rustFromUtf8 d
          .ok (.hgetall k false)
  | _ => .error .invalidArgument

/-- Modelled from the spec: `HMGet::try_from` (`src/cmd/hmap.rs`, not
under `src/`): name `hmget`, at least two arguments — a key then one or
more fields, all UTF-8 BulkStrings. -/
def hmgetTryFrom (v : Option (List RespFrame)) : Except CommandError Command := do
  let _ ← validate_command_at_least v [[104, 109, 103, 101, 116]] 2
  let args ← extract_args v 1
  match args.head? with
  | some (.bulkString key) =>
      match getData key with
      | .error e => .error (.respErr e)
      | .ok d => do
          let k ← rustFromUtf8 d
          let fields ← (args.drop 1).foldrM (fun f acc =>
            match f with
            | .bulkString b =>
                match getData b with
                | .error e => .error (.respErr e)
                | .ok bs => do
                    let s ← rustFromUtf8 bs
                    .ok (s :: acc)
            | _ => .error .invalidArgument) []
          .ok (.hmget k fields)
  | _ => .error .invalidArgument

/-- `TryFrom<RespArray> for Command` (`src/cmd/mod.rs`), transcribed:
dispatch on the first element.  A BulkString first element is matched by
`as_ref` (null dereferences to the empty byte string) against the exact
lowercase name bytes; an unmatched name constructs `Unrecognized`; a
missing or non-BulkString first element is `InvalidCommand`. -/
def commandTryFromArray (v : Option (List RespFrame)) : Except CommandError Command :=
  match (arrList v).head? with
  | some (.bulkString cmd) =>
      let c := bulkRef cmd
      if c = [103, 101, 116] then getTryFrom v
      else if c = [115, 101, 116] then setTryFrom v
      else if c = [104, 103, 101, 116] then hgetTryFrom v
      else if c = [104, 115, 101, 116] then hsetTryFrom v
      else if c = [104, 103, 101, 116, 97, 108, 108] then hgetallTryFrom v
      else if c = [104, 109, 103, 101, 116] then hmgetTryFrom v
      else if c = [101, 99, 104, 111] then echoTryFrom v
      else if c = [115, 97, 100, 100] then saddTryFrom v
      else if c = [115, 105, 115, 109, 101, 109, 98, 101, 114] then sismemberTryFrom v
      else .ok .unrecognized
  | _ => .error .invalidCommand

/-- `TryFrom<RespFrame> for Command` (`src/cmd/mod.rs`), transcribed:
only an Array frame can be a command. -/
def commandTryFromFrame (f : RespFrame) : Except CommandError Command :=
  match f with
  | .array a => commandTryFromArray a
  | _ => .error .invalidCommand

/-! ## Backend store and executors -/

/-- Modelled from the spec: the `Backend` store (not under `src/`) with
its three independent keyspaces. -/
structure Backend where
  strMap : List (List Nat × RespFrame)
  hashMap : List (List Nat × List (List Nat × RespFrame))
  setMap : List (List Nat × List (List Nat))

/-- A fresh backend (`Backend::new`): all keyspaces empty. -/
def Backend.new : Backend := ⟨[], [], []⟩

/-- Association-list lookup for the keyspaces. -/
def alistFind (k : List Nat) : List (List Nat × List (List Nat)) → Option (List (List Nat))
  | [] => none
  | (k', v) :: rest => if k = k' then some v else alistFind k rest

/-- Association-list update / insert. -/
def alistPut (k : List Nat) (v : List (List Nat)) :
    List (List Nat × List (List Nat)) → List (List Nat × List (List Nat))
  | [] => [(k, v)]
  | (k', v') :: rest => if k = k' then (k, v) :: rest else (k', v') :: alistPut k v rest

/-- Modelled from the spec: `Backend::sadd` — insert the member into the
key's set (a no-op on state when already present). -/
def Backend.sadd (b : Backend) (key member : List Nat) : Backend :=
  let members := (alistFind key b.setMap).getD []
  if member ∈ members then b
  else { b with setMap := alistPut key (members ++ [member]) b.setMap }

/-- Modelled from the spec: `Backend::sismember` — membership test in
the key's set (false for an absent key). -/
def Backend.sismember (b : Backend) (key member : List Nat) : Bool :=
  member ∈ (alistFind key b.setMap).getD []

/-- `CommandExecutor for SAdd` (`src/cmd/set.rs`), transcribed: performs
the backend insert and always replies `Integer 1`.  Returns the reply
and the backend state after execution. -/
def execSAdd (key member : List Nat) (b : Backend) : RespFrame × Backend :=
  (RespFrame.integer 1, b.sadd key member)

/-- `CommandExecutor for SisMember` (`src/cmd/set.rs`), transcribed:
replies `Integer 1` if the member is present, else `Integer 0`. -/
def execSisMember (key member : List Nat) (b : Backend) : RespFrame × Backend :=
  (RespFrame.integer (if b.sismember key member then 1 else 0), b)

/-- `CommandExecutor for Echo` (`src/cmd/echo.rs`), transcribed: replies
with the message as a BulkString; the backend is untouched. -/
def execEcho (message : List Nat) (b : Backend) : RespFrame × Backend :=
  (RespFrame.bulkString (some message), b)

/-- The nine recognized (exact lowercase) command name byte strings of
the `TryFrom<RespArray> for Command` dispatch. -/
def commandNames : List (List Nat) :=
  [[103, 101, 116], [115, 101, 116], [104, 103, 101, 116], [104, 115, 101, 116],
   [104, 103, 101, 116, 97, 108, 108], [104, 109, 103, 101, 116], [101, 99, 104, 111],
   [115, 97, 100, 100], [115, 105, 115, 109, 101, 109, 98, 101, 114]]

/-- Whether a frame is a BulkString (of either nullity). -/
def isBulk : RespFrame → Bool
  | .bulkString _ => true
  | _ => false

/-- Scan behavior on a complete encoding: at any fuel, scanning a buffer
that starts with `encodeFrame f` either runs out of fuel (`NotComplete`)
or reports exactly the encoding's length. -/
def ScanC (f : RespFrame) : Prop :=
  ∀ (fuel : Nat) (rest : List Nat),
    scanGo fuel (.one (encodeFrame f ++ rest)) = .error .notComplete ∨
    scanGo fuel (.one (encodeFrame f ++ rest)) = .ok (encodeFrame f).length

/-- Scan behavior on a strict prefix of an encoding: at any fuel, the
scan reports `NotComplete` or the full frame's length (which then
exceeds the buffered prefix). -/
def ScanP (f : RespFrame) : Prop :=
  ∀ (fuel : Nat) (p : List Nat), ListPre p (encodeFrame f) → p ≠ encodeFrame f →
    scanGo fuel (.one p) = .error .notComplete ∨
    scanGo fuel (.one p) = .ok (encodeFrame f).length

/-! ## Claim theorems -/

/-- C1: decoding the byte sequence produced by encoding a frame does
*not* always yield the frame back.  At the frame
`Array [BulkString "", BulkString "a"]` — built and encoded entirely by
the in-src `RespArray`/`BulkString` encoders — the respv2 `parse_frame`
fails outright: the empty bulk string's parser returns without consuming
its trailing CRLF, so the next element's dispatch lands on a `\r` byte. -/
theorem c1_roundtrip_fails_on_empty_bulk :
    encodeFrame (.array (some [.bulkString (some []), .bulkString (some [97])])) =
      [42, 50, 13, 10, 36, 48, 13, 10, 13, 10, 36, 49, 13, 10, 97, 13, 10] ∧
    parse_frame (encodeFrame (.array (some [.bulkString (some []), .bulkString (some [97])]))) =
      .error .backtrack :=
  ⟨rfl, rfl⟩

/-- C3: the length scanner and the parser disagree on the Boolean frame
`#t\r\n`: `parse_frame_length` reports 4 bytes, but `parse_frame`
consumes only 2 (the `boolean` parser never consumes the CRLF), leaving
the 2-byte suffix `\r\n` unconsumed. -/
theorem c3_scan_decode_divergence_on_boolean :
    parse_frame_length [35, 116, 13, 10] = .ok 4 ∧
    parse_frame [35, 116, 13, 10] = .ok (.boolean true, [13, 10]) :=
  ⟨rfl, rfl⟩

/-- C4: the two decode strategies disagree on the empty (non-null)
BulkString encoding `$0\r\n\r\n`: the direct `BulkString::decode`
consumes all 6 bytes (empty buffer remains), while the respv2
`parse_frame` consumes only 4, leaving the trailing `\r\n` behind. -/
theorem c4_empty_bulk_strategies_disagree :
    BulkString_decode [36, 48, 13, 10, 13, 10] = (.ok (some []), []) ∧
    parse_frame [36, 48, 13, 10, 13, 10] = .ok (.bulkString (some []), [13, 10]) :=
  ⟨rfl, rfl⟩

/-- C5 counterexample: a BulkString header declaring length `-2` does
*not* fail the respv2 decode with `InvalidFrame`: `parse_frame_length`
maps the inner hard error to `NotComplete`, which the decode surfaces. -/
theorem c5_negative_length_not_invalid :
    respv2Decode [36, 45, 50, 13, 10] = .error .notComplete ∧
    RespError.notComplete ≠ RespError.invalidFrame :=
  ⟨rfl, by decide⟩

/-- C6 counterexample: a Map header declaring the odd pair-count 3 does
*not* fail decode with `InvalidFrame`; the respv2 decode succeeds,
consuming `⌊3/2⌋ = 1` key/value pair (all 14 buffered bytes of
`%3\r\n+key\r\n:1\r\n`). -/
theorem c6_odd_map_count_accepted :
    respv2Decode [37, 51, 13, 10, 43, 107, 101, 121, 13, 10, 58, 49, 13, 10] =
      .ok (.map [([107, 101, 121], .integer 1)], 14) :=
  rfl

/-- C7 counterexample: command-name matching is *not* case-insensitive:
the arrays `["GET", "hello"]` and `["Echo", "hello"]` both construct
`Unrecognized`, not the `Get`/`Echo` variants. -/
theorem c7_uppercase_names_unrecognized :
    commandTryFromArray
        (some [.bulkString (some [71, 69, 84]), .bulkString (some [104, 101, 108, 108, 111])]) =
      .ok .unrecognized ∧
    commandTryFromArray
        (some [.bulkString (some [69, 99, 104, 111]), .bulkString (some [104, 101, 108, 108, 111])]) =
      .ok .unrecognized :=
  ⟨rfl, rfl⟩

/-- C8 counterexample: an array whose first element is a *null*
BulkString does not fail with `InvalidCommand`; the null payload
dereferences to the empty byte string, matches no command name, and the
construction succeeds with `Unrecognized`. -/
theorem c8_null_bulk_head_unrecognized :
    commandTryFromArray (some [.bulkString none]) = .ok .unrecognized :=
  rfl

/-- C9: `SAdd` always replies `Integer 1` on any backend state, and on a
fresh backend, after `SAdd("key", "member")`, `SisMember("key",
"member")` replies `Integer 1` while `SisMember("key", "member1")`
replies `Integer 0`. -/
theorem c9_sadd_sismember_semantics :
    (∀ (b : Backend) (key member : List Nat), (execSAdd key member b).1 = .integer 1) ∧
    (execSisMember [107, 101, 121] [109, 101, 109, 98, 101, 114]
        (execSAdd [107, 101, 121] [109, 101, 109, 98, 101, 114] Backend.new).2).1 =
      .integer 1 ∧
    (execSisMember [107, 101, 121] [109, 101, 109, 98, 101, 114, 49]
        (execSAdd [107, 101, 121] [109, 101, 109, 98, 101, 114] Backend.new).2).1 =
      .integer 0 :=
  ⟨fun _ _ _ => rfl, rfl, rfl⟩

/-- C10: constructing a `Command` from the null Array frame fails with
`InvalidCommand`: the null array dereferences to the empty element
sequence, so there is no first element to match. -/
theorem c10_null_array_command_rejected :
    commandTryFromFrame (.array none) = .error .invalidCommand ∧
    commandTryFromArray none = .error .invalidCommand :=
  ⟨rfl, rfl⟩

/-- C8 (amended): a non-BulkString first element — or an empty element
sequence — fails Command construction with `InvalidCommand`, while a
null-BulkString first element dereferences to the empty byte string and
constructs `Unrecognized`. -/
theorem c8_amended :
    (∀ (f : RespFrame) (rest : List RespFrame), isBulk f = false →
        commandTryFromArray (some (f :: rest)) = .error .invalidCommand) ∧
    (∀ rest : List RespFrame,
        commandTryFromArray (some (.bulkString none :: rest)) = .ok .unrecognized) ∧
    commandTryFromArray (some []) = .error .invalidCommand := by
  refine ⟨?_, ?_, rfl⟩
  · intro f rest hf
    cases f <;> first
      | rfl
      | exact absurd hf (by simp [isBulk])
  · intro rest
    rfl

/-- Witness for `c8_amended` at the concrete inputs `[Integer 0]` and
`[BulkString::null()]`. -/
theorem c8_amended_witness :
    commandTryFromArray (some [.integer 0]) = .error .invalidCommand ∧
    commandTryFromArray (some [.bulkString none, .integer 7]) = .ok .unrecognized :=
  ⟨c8_amended.1 (.integer 0) [] rfl, c8_amended.2.1 [.integer 7]⟩

/-- C7 (amended): the top-level dispatch is case-sensitive: a first
element whose bytes match none of the nine exact-lowercase names
constructs `Unrecognized` (whatever the remaining elements), while an
exact-lowercase name such as `echo` constructs the command's variant. -/
theorem c7_amended :
    (∀ (bs : List Nat) (rest : List RespFrame), bs ∉ commandNames →
        commandTryFromArray (some (.bulkString (some bs) :: rest)) = .ok .unrecognized) ∧
    (∀ msg : List Nat, utf8Valid msg = true →
        commandTryFromArray
            (some [.bulkString (some [101, 99, 104, 111]), .bulkString (some msg)]) =
          .ok (.echo msg)) := by
  constructor
  · intro bs rest h
    simp only [commandNames, List.mem_cons, List.not_mem_nil, or_false, not_or] at h
    obtain ⟨h1, h2, h3, h4, h5, h6, h7, h8, h9⟩ := h
    simp [commandTryFromArray, arrList, bulkRef, h1, h2, h3, h4, h5, h6, h7, h8, h9]
  · intro msg h
    simp [commandTryFromArray, arrList, bulkRef, echoTryFrom, validate_command,
      validate_command_name, validate_command_name.go, extract_args, getData,
      rustFromUtf8, asciiLower, h, Bind.bind, Except.bind]

/-- Witness for `c7_amended` at the concrete inputs `["FOO"]` and
`["echo", "hi"]`. -/
theorem c7_amended_witness :
    commandTryFromArray (some [.bulkString (some [70, 79, 79])]) = .ok .unrecognized ∧
    commandTryFromArray
        (some [.bulkString (some [101, 99, 104, 111]), .bulkString (some [104, 105])]) =
      .ok (.echo [104, 105]) :=
  ⟨c7_amended.1 [70, 79, 79] [] (by decide), c7_amended.2 [104, 105] (by decide)⟩

/-- A maximal digit run followed by `\r` stops exactly at the `\r`. -/
theorem takeWhile_digits_append (ds t : List Nat) (h : ds.all isDigitB = true) :
    (ds ++ 13 :: t).takeWhile isDigitB = ds := by
  induction ds with
  | nil => simp [List.takeWhile_cons, isDigitB]
  | cons a as ih =>
      simp only [List.all_cons, Bool.and_eq_true] at h
      simp [List.takeWhile_cons, h.1, ih h.2]

/-- `integer` on `-<digits>\r\n<t>`: parses to the negated value and
leaves `t`, provided the digit run is non-empty and within `i64`. -/
theorem integerV2_neg_digits (ds t : List Nat) (h1 : ds ≠ []) (h2 : ds.all isDigitB = true)
    (h3 : natVal ds ≤ maxI64) :
    integerV2 (45 :: (ds ++ 13 :: 10 :: t)) = .ok (-(natVal ds : Int), t) := by
  unfold integerV2
  simp only [List.head?_cons]
  rw [show (45 :: (ds ++ 13 :: 10 :: t)).drop 1 = ds ++ 13 :: 10 :: t from rfl]
  rw [takeWhile_digits_append ds (10 :: t) h2]
  simp [h1, h3, List.drop_left]

/-- `bulk_string_len` rejects a negative length below `-1` with a hard
`Cut` error. -/
theorem bulk_string_len_neg (ds t : List Nat) (h1 : ds ≠ []) (h2 : ds.all isDigitB = true)
    (h3 : 2 ≤ natVal ds) (h4 : natVal ds ≤ maxI64) :
    bulk_string_len (45 :: (ds ++ 13 :: 10 :: t)) = .error .cut := by
  unfold bulk_string_len
  rw [integerV2_neg_digits ds t h1 h2 h4]
  have hne : ¬(-(natVal ds : Int) = 0 ∨ -(natVal ds : Int) = -1) := by omega
  have hlt : -(natVal ds : Int) < 0 := by omega
  simp [hne, hlt]
  omega

/-- One unfolding of the scan on a `$`-tagged buffer. -/
theorem v2Go_len_dollar (fuel : Nat) (r : List Nat) :
    v2Go (fuel + 1) (.len (36 :: r)) =
      match bulk_string_len r with
      | .error e => .error e
      | .ok (_, r2) => .ok (.done, r2) := by
  simp [v2Go]

/-- One unfolding of the scan on a `*`-tagged buffer. -/
theorem v2Go_len_star (fuel : Nat) (r : List Nat) :
    v2Go (fuel + 1) (.len (42 :: r)) =
      match integerV2 r with
      | .error e => .error e
      | .ok (len, r2) =>
          if len = 0 ∨ len = -1 then .ok (.done, r2)
          else if len < 0 then .error .cut
          else v2Go fuel (.lens len.toNat r2) := by
  simp [v2Go]

/-- One unfolding of the scan on a `%`-tagged buffer. -/
theorem v2Go_len_pct (fuel : Nat) (r : List Nat) :
    v2Go (fuel + 1) (.len (37 :: r)) =
      match integerV2 r with
      | .error e => .error e
      | .ok (len, r2) =>
          if len ≤ 0 then .error .cut
          else v2Go fuel (.klens (len / 2).toNat r2) := by
  simp [v2Go]

/-- C5 (amended): for every BulkString or Array header declaring a
negative length other than `-1` (written `-<digits>` for a digit string
of value ≥ 2 within `i64`), the inner respv2 scanners fail with a hard
`Cut` error, yet `parse_frame_length` — which maps every scan failure to
`NotComplete` — and hence the respv2 decode report `NotComplete`, not
`InvalidFrame`. -/
theorem c5_amended (ds t : List Nat) (h1 : ds ≠ []) (h2 : ds.all isDigitB = true)
    (h3 : 2 ≤ natVal ds) (h4 : natVal ds ≤ maxI64) :
    parse_frame_len (36 :: 45 :: (ds ++ 13 :: 10 :: t)) = .error .cut ∧
    parse_frame_len (42 :: 45 :: (ds ++ 13 :: 10 :: t)) = .error .cut ∧
    parse_frame_length (36 :: 45 :: (ds ++ 13 :: 10 :: t)) = .error .notComplete ∧
    parse_frame_length (42 :: 45 :: (ds ++ 13 :: 10 :: t)) = .error .notComplete ∧
    respv2Decode (36 :: 45 :: (ds ++ 13 :: 10 :: t)) = .error .notComplete ∧
    respv2Decode (42 :: 45 :: (ds ++ 13 :: 10 :: t)) = .error .notComplete := by
  have hd : parse_frame_len (36 :: 45 :: (ds ++ 13 :: 10 :: t)) = .error .cut := by
    unfold parse_frame_len
    rw [v2Go_len_dollar, bulk_string_len_neg ds t h1 h2 h3 h4]
  have hs : parse_frame_len (42 :: 45 :: (ds ++ 13 :: 10 :: t)) = .error .cut := by
    unfold parse_frame_len
    rw [v2Go_len_star, integerV2_neg_digits ds t h1 h2 h4]
    have hne : ¬(-(natVal ds : Int) = 0 ∨ -(natVal ds : Int) = -1) := by omega
    have hlt : -(natVal ds : Int) < 0 := by omega
    have hnat : ¬(natVal ds = 0 ∨ natVal ds = 1) := by omega
    simp [hne, hlt, hnat]
  have hld : parse_frame_length (36 :: 45 :: (ds ++ 13 :: 10 :: t)) = .error .notComplete := by
    unfold parse_frame_length; rw [hd]
  have hls : parse_frame_length (42 :: 45 :: (ds ++ 13 :: 10 :: t)) = .error .notComplete := by
    unfold parse_frame_length; rw [hs]
  refine ⟨hd, hs, hld, hls, ?_, ?_⟩
  · unfold respv2Decode; rw [hld]
  · unfold respv2Decode; rw [hls]

/-- Witness for `c5_amended` at the concrete buffers `$-2\r\n` and
`*-2\r\n`. -/
theorem c5_amended_witness :
    parse_frame_len [36, 45, 50, 13, 10] = .error .cut ∧
    parse_frame_len [42, 45, 50, 13, 10] = .error .cut ∧
    parse_frame_length [36, 45, 50, 13, 10] = .error .notComplete ∧
    parse_frame_length [42, 45, 50, 13, 10] = .error .notComplete ∧
    respv2Decode [36, 45, 50, 13, 10] = .error .notComplete ∧
    respv2Decode [42, 45, 50, 13, 10] = .error .notComplete :=
  c5_amended [50] [] (by decide) (by decide) (by decide) (by decide)

/-- `integer` on `0\r\n<t>` parses to 0. -/
theorem integerV2_zero (t : List Nat) : integerV2 (48 :: 13 :: 10 :: t) = .ok (0, t) := by
  unfold integerV2
  simp [List.takeWhile_cons, isDigitB, natVal, maxI64]

/-- C6 (amended): a Map pair-count that is zero or negative fails the
inner respv2 parser with a hard `Cut` error, surfaced by
`parse_frame_length` as `NotComplete` (not `InvalidFrame`); an odd
pair-count is not rejected at all — on `%3\r\n+key\r\n:1\r\n` decode
succeeds, consuming `⌊3/2⌋ = 1` key/value pair. -/
theorem c6_amended (t ds : List Nat) (h1 : ds ≠ []) (h2 : ds.all isDigitB = true)
    (h3 : 1 ≤ natVal ds) (h4 : natVal ds ≤ maxI64) :
    parse_frame_len (37 :: 48 :: 13 :: 10 :: t) = .error .cut ∧
    parse_frame_length (37 :: 48 :: 13 :: 10 :: t) = .error .notComplete ∧
    parse_frame_len (37 :: 45 :: (ds ++ 13 :: 10 :: t)) = .error .cut ∧
    parse_frame_length (37 :: 45 :: (ds ++ 13 :: 10 :: t)) = .error .notComplete ∧
    parse_frame [37, 51, 13, 10, 43, 107, 101, 121, 13, 10, 58, 49, 13, 10] =
      .ok (.map [([107, 101, 121], .integer 1)], []) ∧
    parse_frame_length [37, 51, 13, 10, 43, 107, 101, 121, 13, 10, 58, 49, 13, 10] = .ok 14 := by
  have hz : parse_frame_len (37 :: 48 :: 13 :: 10 :: t) = .error .cut := by
    unfold parse_frame_len
    rw [v2Go_len_pct, integerV2_zero]
    simp
  have hn : parse_frame_len (37 :: 45 :: (ds ++ 13 :: 10 :: t)) = .error .cut := by
    unfold parse_frame_len
    rw [v2Go_len_pct, integerV2_neg_digits ds t h1 h2 h4]
    have hle : -(natVal ds : Int) ≤ 0 := by omega
    simp [hle]
  refine ⟨hz, ?_, hn, ?_, rfl, rfl⟩
  · unfold parse_frame_length; rw [hz]
  · unfold parse_frame_length; rw [hn]

/-- Witness for `c6_amended` at the concrete buffers `%0\r\n` and
`%-1\r\n`. -/
theorem c6_amended_witness :
    parse_frame_len [37, 48, 13, 10] = .error .cut ∧
    parse_frame_length [37, 48, 13, 10] = .error .notComplete ∧
    parse_frame_len [37, 45, 49, 13, 10] = .error .cut ∧
    parse_frame_length [37, 45, 49, 13, 10] = .error .notComplete ∧
    parse_frame [37, 51, 13, 10, 43, 107, 101, 121, 13, 10, 58, 49, 13, 10] =
      .ok (.map [([107, 101, 121], .integer 1)], []) ∧
    parse_frame_length [37, 51, 13, 10, 43, 107, 101, 121, 13, 10, 58, 49, 13, 10] = .ok 14 :=
  c6_amended [] [49] (by decide) (by decide) (by decide) (by decide)

/-! ### Prefix and CRLF-search lemmas (towards C2) -/

theorem listPre_nil_right (p : List Nat) (h : ListPre p []) : p = [] := by
  obtain ⟨t, ht⟩ := h
  cases p with
  | nil => rfl
  | cons a as => simp at ht

theorem listPre_len (p l : List Nat) (h : ListPre p l) : p.length ≤ l.length := by
  obtain ⟨t, ht⟩ := h
  subst ht; simp

theorem listPre_len_lt (p l : List Nat) (h : ListPre p l) (hne : p ≠ l) :
    p.length < l.length := by
  obtain ⟨t, ht⟩ := h
  cases t with
  | nil => rw [List.append_nil] at ht; exact absurd ht hne
  | cons a as => subst ht; simp

theorem listPre_cons_cases (p : List Nat) (x : Nat) (l : List Nat)
    (h : ListPre p (x :: l)) : p = [] ∨ ∃ q, p = x :: q ∧ ListPre q l := by
  obtain ⟨t, ht⟩ := h
  cases p with
  | nil => exact Or.inl rfl
  | cons a as =>
      simp only [List.cons_append, List.cons.injEq] at ht
      exact Or.inr ⟨as, by rw [ht.1], ⟨t, ht.2⟩⟩

theorem listPre_append_cases (p a b : List Nat) (h : ListPre p (a ++ b)) :
    ListPre p a ∨ ∃ q, p = a ++ q ∧ ListPre q b := by
  induction a generalizing p with
  | nil => exact Or.inr ⟨p, by simp, by simpa using h⟩
  | cons x a' ih =>
      rcases listPre_cons_cases p x (a' ++ b) (by simpa using h) with hnil | ⟨q, hq, hq2⟩
      · exact Or.inl ⟨x :: a', by simp [hnil]⟩
      · rcases ih q hq2 with h1 | ⟨q2, hq21, hq22⟩
        · obtain ⟨t, ht⟩ := h1
          exact Or.inl ⟨t, by simp [hq, ← ht]⟩
        · exact Or.inr ⟨q2, by simp [hq, hq21], hq22⟩

theorem listPre_take (l : List Nat) (n : Nat) : ListPre (l.take n) l :=
  ⟨l.drop n, List.take_append_drop n l⟩

theorem listPre_eq_take (p l : List Nat) (h : ListPre p l) : p = l.take p.length := by
  obtain ⟨t, ht⟩ := h
  subst ht
  rw [List.take_left p t]

theorem findCrlf_cons (a : Nat) (l : List Nat) :
    findCrlf (a :: l) =
      if a = 13 ∧ l.head? = some 10 then some 0 else (findCrlf l).map (· + 1) := rfl

theorem crlfFree_cons (a : Nat) (l : List Nat) (hl : findCrlf l = none)
    (hh : ¬(a = 13 ∧ l.head? = some 10)) : findCrlf (a :: l) = none := by
  rw [findCrlf_cons, if_neg hh, hl]; rfl

theorem crlfFree_pre (l : List Nat) : ∀ p : List Nat, findCrlf l = none → ListPre p l →
    findCrlf p = none := by
  induction l with
  | nil => intro p _ hp; rw [listPre_nil_right p hp]; rfl
  | cons x l' ih =>
      intro p hl hp
      rw [findCrlf_cons] at hl
      by_cases hc : x = 13 ∧ l'.head? = some 10
      · rw [if_pos hc] at hl; simp at hl
      · rw [if_neg hc] at hl
        simp only [Option.map_eq_none'] at hl
        rcases listPre_cons_cases p x l' hp with h1 | ⟨q, hq, hq2⟩
        · rw [h1]; rfl
        · subst hq
          have hc' : ¬(x = 13 ∧ q.head? = some 10) := by
            rintro ⟨hx, hq10⟩
            apply hc
            refine ⟨hx, ?_⟩
            obtain ⟨t, ht⟩ := hq2
            cases q with
            | nil => simp at hq10
            | cons b q' =>
                simp only [List.head?_cons, Option.some.injEq] at hq10
                subst hq10
                subst ht
                simp
          exact crlfFree_cons x q (ih q hl hq2) hc'

theorem crlfFree_snoc13 (s : List Nat) (hs : findCrlf s = none) :
    findCrlf (s ++ [13]) = none := by
  induction s with
  | nil => rfl
  | cons x s' ih =>
      rw [findCrlf_cons] at hs
      by_cases hc : x = 13 ∧ s'.head? = some 10
      · rw [if_pos hc] at hs; simp at hs
      · rw [if_neg hc] at hs
        simp only [Option.map_eq_none'] at hs
        rw [List.cons_append]
        refine crlfFree_cons x _ (ih hs) ?_
        rintro ⟨hx, hh⟩
        apply hc
        refine ⟨hx, ?_⟩
        cases s' with
        | nil => simp at hh
        | cons b s'' => simpa using hh

theorem findCrlf_append_crlf (s : List Nat) (hs : findCrlf s = none) (t : List Nat) :
    findCrlf (s ++ 13 :: 10 :: t) = some s.length := by
  induction s with
  | nil => rfl
  | cons x s' ih =>
      rw [findCrlf_cons] at hs
      by_cases hc : x = 13 ∧ s'.head? = some 10
      · rw [if_pos hc] at hs; simp at hs
      · rw [if_neg hc] at hs
        simp only [Option.map_eq_none'] at hs
        rw [List.cons_append, findCrlf_cons]
        have hc2 : ¬(x = 13 ∧ (s' ++ 13 :: 10 :: t).head? = some 10) := by
          rintro ⟨hx, hh⟩
          apply hc
          refine ⟨hx, ?_⟩
          cases s' with
          | nil => simp at hh
          | cons b s'' => simpa using hh
        rw [if_neg hc2, ih hs]
        rfl

theorem pre_crlf_free (s p : List Nat) (hs : findCrlf s = none)
    (hp : ListPre p (s ++ [13, 10])) (hne : p ≠ s ++ [13, 10]) : findCrlf p = none := by
  have hlen := listPre_len_lt p _ hp hne
  have h3 : p.length ≤ (s ++ [13]).length := by
    simp only [List.length_append, List.length_cons, List.length_nil] at hlen ⊢
    omega
  have h13 : ListPre p (s ++ [13]) := by
    have h1 : p = (s ++ [13, 10]).take p.length := listPre_eq_take _ _ hp
    have h2 : s ++ [13, 10] = (s ++ [13]) ++ [10] := by simp
    rw [h2, List.take_append_of_le_length h3] at h1
    rw [h1]
    exact listPre_take _ _
  exact crlfFree_pre _ p (crlfFree_snoc13 s hs) h13

theorem pre_header_cases (s w p : List Nat) (hs : findCrlf s = none)
    (hp : ListPre p (s ++ 13 :: 10 :: w)) :
    findCrlf p = none ∨ ∃ q, p = s ++ 13 :: 10 :: q ∧ ListPre q w := by
  have hsplit : s ++ 13 :: 10 :: w = (s ++ [13, 10]) ++ w := by simp
  rw [hsplit] at hp
  rcases listPre_append_cases p _ _ hp with h1 | ⟨q, hq, hq2⟩
  · by_cases he : p = s ++ [13, 10]
    · exact Or.inr ⟨[], by simp [he], ⟨w, rfl⟩⟩
    · exact Or.inl (pre_crlf_free s p hs h1 he)
  · exact Or.inr ⟨q, by simp [hq], hq2⟩

/-! ### Decimal header lemmas -/

theorem natVal_append_one (xs : List Nat) (d : Nat) :
    natVal (xs ++ [d]) = natVal xs * 10 + (d - 48) := by
  unfold natVal
  rw [List.foldl_append]
  rfl

theorem natDigitsAux_spec (fuel : Nat) : ∀ n, n < fuel →
    (natDigitsAux fuel n).all isDigitB = true ∧ natDigitsAux fuel n ≠ [] ∧
      natVal (natDigitsAux fuel n) = n := by
  induction fuel with
  | zero => intro n h; omega
  | succ fuel ih =>
      intro n h
      unfold natDigitsAux
      by_cases h10 : n < 10
      · rw [if_pos h10]
        refine ⟨?_, by simp, ?_⟩
        · simp only [List.all_cons, List.all_nil, Bool.and_true, isDigitB]
          simp only [decide_eq_true_eq, Bool.and_eq_true]
          omega
        · unfold natVal
          simp
      · rw [if_neg h10]
        have hdiv : n / 10 < fuel := by
          have := Nat.div_lt_self (by omega : 0 < n) (by norm_num : (1 : Nat) < 10)
          omega
        obtain ⟨ha, hne, hv⟩ := ih (n / 10) hdiv
        refine ⟨?_, by simp, ?_⟩
        · rw [List.all_append, ha]
          simp only [Bool.true_and, List.all_cons, List.all_nil, Bool.and_true, isDigitB]
          simp only [decide_eq_true_eq, Bool.and_eq_true]
          omega
        · rw [natVal_append_one, hv]
          have := Nat.div_add_mod n 10
          omega

theorem natDigits_spec (n : Nat) :
    (natDigits n).all isDigitB = true ∧ natDigits n ≠ [] ∧ natVal (natDigits n) = n :=
  natDigitsAux_spec (n + 1) n (by omega)

theorem digits_crlfFree (ds : List Nat) (h : ds.all isDigitB = true) :
    findCrlf ds = none := by
  induction ds with
  | nil => rfl
  | cons a as ih =>
      simp only [List.all_cons, Bool.and_eq_true] at h
      refine crlfFree_cons a as (ih h.2) ?_
      rintro ⟨h13, _⟩
      subst h13
      exact absurd h.1 (by decide)

theorem digits_head_ne10 (ds : List Nat) (h : ds.all isDigitB = true) :
    ds.head? ≠ some 10 := by
  cases ds with
  | nil => simp
  | cons a as =>
      simp only [List.all_cons, Bool.and_eq_true] at h
      intro hh
      simp only [List.head?_cons, Option.some.injEq] at hh
      subst hh
      exact absurd h.1 (by decide)

theorem parseIntB_digits (ds : List Nat) (h1 : ds ≠ []) (h2 : ds.all isDigitB = true)
    (h3 : natVal ds ≤ maxI64) : parseIntB ds = some ((natVal ds : Nat) : Int) := by
  cases ds with
  | nil => exact absurd rfl h1
  | cons a as =>
      have hall := h2
      simp only [List.all_cons, Bool.and_eq_true] at h2
      have ha : 48 ≤ a ∧ a ≤ 57 := by
        have := h2.1
        simp only [isDigitB, decide_eq_true_eq, Bool.and_eq_true] at this
        omega
      show (if a = 43 then _ else if a = 45 then _ else
          if (a :: as).all isDigitB = true ∧ natVal (a :: as) ≤ maxI64 then
            some ((natVal (a :: as) : Nat) : Int) else none) = _
      rw [if_neg (by omega : ¬a = 43), if_neg (by omega : ¬a = 45),
        if_pos ⟨hall, h3⟩]

theorem parseLenIsize_nc (buf : List Nat) (tag : Nat) (h : findCrlf buf = none) :
    parseLenIsize buf tag = .error .notComplete := by
  unfold parseLenIsize
  rw [h]

theorem tag_digits_crlfFree (tag n : Nat) : findCrlf (tag :: natDigits n) = none := by
  obtain ⟨hall, hne, _⟩ := natDigits_spec n
  exact crlfFree_cons tag _ (digits_crlfFree _ hall)
    (fun hc => digits_head_ne10 _ hall hc.2)

theorem parseLenIsize_complete (tag n : Nat) (w : List Nat) (hn : n ≤ maxI64) :
    parseLenIsize (tag :: (natDigits n ++ 13 :: 10 :: w)) tag =
      .ok ((natDigits n).length + 1, (n : Int)) := by
  obtain ⟨hall, hne, hval⟩ := natDigits_spec n
  have hfind : findCrlf (tag :: (natDigits n ++ 13 :: 10 :: w)) =
      some ((natDigits n).length + 1) := by
    have h := findCrlf_append_crlf (tag :: natDigits n) (tag_digits_crlfFree tag n) w
    simpa using h
  have hdrop : (tag :: (natDigits n ++ 13 :: 10 :: w)).drop 1 = natDigits n ++ 13 :: 10 :: w :=
    rfl
  have htake : (natDigits n ++ 13 :: 10 :: w).take ((natDigits n).length + 1 - 1) =
      natDigits n := by
    simp only [Nat.add_sub_cancel]
    exact List.take_left _ _
  have hpi : parseIntB (natDigits n) = some ((n : Nat) : Int) := by
    rw [parseIntB_digits _ hne hall (by rw [hval]; exact hn), hval]
  unfold parseLenIsize
  simp only [hfind, hdrop, htake, hpi, List.head?_cons, if_pos rfl]
  rw [if_pos trivial]
  rw [if_neg (by omega : ¬((n : Nat) : Int) < -1)]

theorem parseLenIsize_neg1 (tag : Nat) (w : List Nat) :
    parseLenIsize (tag :: 45 :: 49 :: 13 :: 10 :: w) tag = .ok (3, -1) := by
  have hfree : findCrlf [tag, 45, 49] = none := by
    refine crlfFree_cons tag _ (by rfl) ?_
    rintro ⟨_, hh⟩
    simp at hh
  have hfind : findCrlf (tag :: 45 :: 49 :: 13 :: 10 :: w) = some 3 := by
    have h := findCrlf_append_crlf [tag, 45, 49] hfree w
    simpa using h
  unfold parseLenIsize
  rw [hfind]
  simp only [List.head?_cons, if_pos rfl]
  norm_num
  rw [show parseIntB [45, 49] = some (-1) from by decide]
  norm_num

/-! ### Encoding-shape lemmas -/

theorem encodeFrame_ne_nil (f : RespFrame) : encodeFrame f ≠ [] := by
  cases f with
  | simpleString s => simp [encodeFrame]
  | simpleError s => simp [encodeFrame]
  | integer i => simp [encodeFrame]
  | bulkString b => cases b <;> simp [encodeFrame]
  | array a => cases a <;> simp [encodeFrame]
  | null => simp [encodeFrame]
  | boolean b => cases b <;> simp [encodeFrame]
  | double tok => simp [encodeFrame]
  | map m => simp [encodeFrame]

theorem encList_mem_le (g : RespFrame) (fs : List RespFrame) (h : g ∈ fs) :
    (encodeFrame g).length ≤ (encList fs).length := by
  induction fs with
  | nil => simp at h
  | cons f fs ih =>
      rcases List.mem_cons.mp h with h1 | h2
      · subst h1; simp [encList]
      · have := ih h2
        simp only [encList, List.length_append]
        omega

theorem encPairs_mem_le (k : List Nat) (v : RespFrame) (m : List (List Nat × RespFrame))
    (h : (k, v) ∈ m) : (encodeFrame v).length ≤ (encPairs m).length := by
  induction m with
  | nil => simp at h
  | cons kv m' ih =>
      rcases List.mem_cons.mp h with h1 | h2
      · obtain ⟨k', v'⟩ := kv
        simp only [Prod.mk.injEq] at h1
        simp only [encPairs, h1.2, List.length_cons, List.length_append]
        omega
      · have := ih h2
        obtain ⟨k', v'⟩ := kv
        simp only [encPairs, List.length_cons, List.length_append]
        omega

theorem validList_mem (fs : List RespFrame) (h : validList fs = true) :
    ∀ g ∈ fs, validFrame g = true := by
  induction fs with
  | nil => intro g hg; simp at hg
  | cons f fs ih =>
      simp only [validList, Bool.and_eq_true] at h
      intro g hg
      rcases List.mem_cons.mp hg with h1 | h2
      · subst h1; exact h.1
      · exact ih h.2 g h2

theorem validPairs_mem (m : List (List Nat × RespFrame)) (h : validPairs m = true) :
    ∀ kv ∈ m, findCrlf kv.1 = none ∧ validFrame kv.2 = true := by
  induction m with
  | nil => intro kv hkv; simp at hkv
  | cons kv0 m' ih =>
      obtain ⟨k, v⟩ := kv0
      simp only [validPairs, Bool.and_eq_true, decide_eq_true_eq] at h
      intro kv hkv
      rcases List.mem_cons.mp hkv with h1 | h2
      · subst h1; exact ⟨h.1.1, h.1.2⟩
      · exact ih h.2 kv h2

/-! ### Scanner unfolding equations -/

theorem scanGo_zero (j : ScanJob) : scanGo 0 j = .error .notComplete := rfl

theorem scanGo_one_nil (fuel : Nat) : scanGo (fuel + 1) (.one []) = .error .notComplete := rfl

theorem scanGo_one_simple (fuel b : Nat) (hb : b = 43 ∨ b = 45 ∨ b = 58 ∨ b = 44)
    (rest : List Nat) :
    scanGo (fuel + 1) (.one (b :: rest)) =
      match findCrlf rest with
      | none => .error .notComplete
      | some i => .ok (1 + i + 2) := by
  rcases hb with h | h | h | h <;> subst h <;> rfl

theorem scanGo_one_null (fuel : Nat) (rest : List Nat) :
    scanGo (fuel + 1) (.one (95 :: rest)) = .ok 3 := rfl

theorem scanGo_one_bool (fuel : Nat) (rest : List Nat) :
    scanGo (fuel + 1) (.one (35 :: rest)) = .ok 4 := rfl

theorem scanGo_one_dollar (fuel : Nat) (rest : List Nat) :
    scanGo (fuel + 1) (.one (36 :: rest)) =
      match parseLenIsize (36 :: rest) 36 with
      | .error e => .error e
      | .ok (e, len) =>
          if len = -1 then .ok (e + 2) else .ok (e + 2 + len.toNat + 2) := rfl

theorem scanGo_one_star (fuel : Nat) (rest : List Nat) :
    scanGo (fuel + 1) (.one (42 :: rest)) =
      match parseLenIsize (42 :: rest) 42 with
      | .error e => .error e
      | .ok (e, len) =>
          if len = -1 then .ok (e + 2)
          else
            match scanGo fuel (.many len.toNat ((42 :: rest).drop (e + 2))) with
            | .error e2 => .error e2
            | .ok m => .ok (e + 2 + m) := rfl

theorem scanGo_one_pct (fuel : Nat) (rest : List Nat) :
    scanGo (fuel + 1) (.one (37 :: rest)) =
      match parseLenIsize (37 :: rest) 37 with
      | .error e => .error e
      | .ok (e, len) =>
          if len ≤ 0 ∨ ¬ 2 ∣ len then .error .invalidFrame
          else
            match scanGo fuel (.pairs (len / 2).toNat ((37 :: rest).drop (e + 2))) with
            | .error e2 => .error e2
            | .ok m => .ok (e + 2 + m) := rfl

theorem scanGo_many_zero (fuel : Nat) (data : List Nat) :
    scanGo (fuel + 1) (.many 0 data) = .ok 0 := rfl

theorem scanGo_many_succ (fuel count : Nat) (data : List Nat) :
    scanGo (fuel + 1) (.many (count + 1) data) =
      match scanGo fuel (.one data) with
      | .error e => .error e
      | .ok l =>
          if data.length < l then .error .notComplete
          else
            match scanGo fuel (.many count (data.drop l)) with
            | .error e => .error e
            | .ok r => .ok (l + r) := rfl

theorem scanGo_pairs_zero (fuel : Nat) (data : List Nat) :
    scanGo (fuel + 1) (.pairs 0 data) = .ok 0 := rfl

theorem scanGo_pairs_succ_nil (fuel count : Nat) :
    scanGo (fuel + 1) (.pairs (count + 1) []) = .error .notComplete := rfl

theorem scanGo_pairs_succ (fuel count : Nat) (rest : List Nat) :
    scanGo (fuel + 1) (.pairs (count + 1) (43 :: rest)) =
      match findCrlf rest with
      | none => .error .notComplete
      | some i =>
        let kl := 1 + i + 2
        match scanGo fuel (.one ((43 :: rest).drop kl)) with
        | .error e => .error e
        | .ok l =>
            if ((43 :: rest).drop kl).length < l then .error .notComplete
            else
              match scanGo fuel (.pairs count (((43 :: rest).drop kl).drop l)) with
              | .error e => .error e
              | .ok r => .ok (kl + l + r) := rfl

/-! ### Container scan lemmas -/

theorem scanMany_complete (fs : List RespFrame) (H : ∀ g ∈ fs, ScanC g) :
    ∀ (fuel : Nat) (rest : List Nat),
      scanGo fuel (.many fs.length (encList fs ++ rest)) = .error .notComplete ∨
      scanGo fuel (.many fs.length (encList fs ++ rest)) = .ok (encList fs).length := by
  induction fs with
  | nil =>
      intro fuel rest
      cases fuel with
      | zero => exact Or.inl (scanGo_zero _)
      | succ fuel => exact Or.inr (by simp [encList, scanGo_many_zero])
  | cons f fs ih =>
      intro fuel rest
      cases fuel with
      | zero => exact Or.inl (scanGo_zero _)
      | succ fuel =>
          have hdata : encList (f :: fs) ++ rest = encodeFrame f ++ (encList fs ++ rest) := by
            simp [encList]
          rw [show (f :: fs).length = fs.length + 1 from rfl, hdata, scanGo_many_succ]
          rcases H f (List.mem_cons_self f fs) fuel (encList fs ++ rest) with hnc | hok
          · exact Or.inl (by simp only [hnc])
          · simp only [hok]
            have hdlen : ¬(encodeFrame f ++ (encList fs ++ rest)).length <
                (encodeFrame f).length := by
              simp
            rw [if_neg hdlen, List.drop_left _ _]
            rcases ih (fun g hg => H g (List.mem_cons_of_mem f hg)) fuel rest with hnc2 | hok2
            · exact Or.inl (by simp only [hnc2])
            · simp only [hok2]
              refine Or.inr ?_
              simp [encList]

theorem scanMany_pre (fs : List RespFrame)
    (H : ∀ g ∈ fs, ScanC g ∧ ScanP g) :
    ∀ (fuel : Nat) (q : List Nat), ListPre q (encList fs) → q ≠ encList fs →
      scanGo fuel (.many fs.length q) = .error .notComplete := by
  induction fs with
  | nil =>
      intro fuel q hq hne
      exact absurd (listPre_nil_right q (by simpa [encList] using hq)) (by simpa [encList] using hne)
  | cons f fs ih =>
      intro fuel q hq hne
      cases fuel with
      | zero => exact scanGo_zero _
      | succ fuel =>
          rw [show (f :: fs).length = fs.length + 1 from rfl, scanGo_many_succ]
          have hq' : ListPre q (encodeFrame f ++ encList fs) := by simpa [encList] using hq
          have hne' : q ≠ encodeFrame f ++ encList fs := by simpa [encList] using hne
          rcases listPre_append_cases q _ _ hq' with h1 | ⟨q2, hq2, hq22⟩
          · by_cases he : q = encodeFrame f
            · subst he
              have hfs : encList fs ≠ [] := by
                intro h0
                exact hne' (by rw [h0, List.append_nil])
              rcases H f (List.mem_cons_self f fs) with ⟨hC, _⟩
              rcases hC fuel [] with hnc | hok
              · rw [List.append_nil] at hnc
                simp only [hnc]
              · rw [List.append_nil] at hok
                simp only [hok]
                rw [if_neg (show ¬(encodeFrame f).length < (encodeFrame f).length by omega)]
                rw [List.drop_length]
                simp only [ih (fun g hg => H g (List.mem_cons_of_mem f hg)) fuel []
                  ⟨encList fs, rfl⟩ (fun h0 => hfs h0.symm)]
            · rcases H f (List.mem_cons_self f fs) with ⟨_, hP⟩
              rcases hP fuel q h1 he with hnc | hok
              · simp only [hnc]
              · simp only [hok]
                have hlt := listPre_len_lt q _ h1 he
                rw [if_pos hlt]
          · subst hq2
            have hq2ne : q2 ≠ encList fs := by
              intro h0
              exact hne' (by rw [h0])
            rcases H f (List.mem_cons_self f fs) with ⟨hC, _⟩
            rcases hC fuel q2 with hnc | hok
            · simp only [hnc]
            · simp only [hok]
              rw [if_neg (show ¬(encodeFrame f ++ q2).length < (encodeFrame f).length by simp)]
              rw [List.drop_left _ _]
              simp only [ih (fun g hg => H g (List.mem_cons_of_mem f hg)) fuel q2 hq22 hq2ne]

theorem drop_key_seg (k X : List Nat) :
    (43 :: (k ++ 13 :: 10 :: X)).drop (1 + k.length + 2) = X := by
  have hsh : 43 :: (k ++ 13 :: 10 :: X) = (43 :: k ++ [13, 10]) ++ X := by simp
  have hlen : 1 + k.length + 2 = (43 :: k ++ [13, 10]).length := by
    simp [List.length_append]
    omega
  rw [hsh, hlen]
  exact List.drop_left _ _

theorem scanPairs_complete (m : List (List Nat × RespFrame))
    (H : ∀ kv ∈ m, ScanC kv.2 ∧ findCrlf kv.1 = none) :
    ∀ (fuel : Nat) (rest : List Nat),
      scanGo fuel (.pairs m.length (encPairs m ++ rest)) = .error .notComplete ∨
      scanGo fuel (.pairs m.length (encPairs m ++ rest)) = .ok (encPairs m).length := by
  induction m with
  | nil =>
      intro fuel rest
      cases fuel with
      | zero => exact Or.inl (scanGo_zero _)
      | succ fuel => exact Or.inr (by simp [encPairs, scanGo_pairs_zero])
  | cons kv m' ih =>
      obtain ⟨k, v⟩ := kv
      intro fuel rest
      cases fuel with
      | zero => exact Or.inl (scanGo_zero _)
      | succ fuel =>
          obtain ⟨hC, hk⟩ := H (k, v) (List.mem_cons_self _ _)
          have hshape : encPairs ((k, v) :: m') ++ rest
              = 43 :: (k ++ 13 :: 10 :: (encodeFrame v ++ (encPairs m' ++ rest))) := by
            simp [encPairs, crlf]
          rw [show ((k, v) :: m').length = m'.length + 1 from rfl, hshape, scanGo_pairs_succ]
          simp only [findCrlf_append_crlf k hk, drop_key_seg]
          rcases hC fuel (encPairs m' ++ rest) with hnc | hok
          · exact Or.inl (by simp only [hnc])
          · simp only [hok]
            rw [if_neg (show ¬(encodeFrame v ++ (encPairs m' ++ rest)).length <
              (encodeFrame v).length by simp)]
            rw [List.drop_left _ _]
            rcases ih (fun kv2 h2 => H kv2 (List.mem_cons_of_mem _ h2)) fuel rest with hnc2 | hok2
            · exact Or.inl (by simp only [hnc2])
            · simp only [hok2]
              refine Or.inr ?_
              have harith : (encPairs ((k, v) :: m')).length =
                  1 + k.length + 2 + (encodeFrame v).length + (encPairs m').length := by
                simp [encPairs, crlf, List.length_append]
                omega
              rw [harith]

theorem scanPairs_pre (m : List (List Nat × RespFrame))
    (H : ∀ kv ∈ m, (ScanC kv.2 ∧ ScanP kv.2) ∧ findCrlf kv.1 = none) :
    ∀ (fuel : Nat) (q : List Nat), ListPre q (encPairs m) → q ≠ encPairs m →
      scanGo fuel (.pairs m.length q) = .error .notComplete := by
  induction m with
  | nil =>
      intro fuel q hq hne
      exact absurd (listPre_nil_right q (by simpa [encPairs] using hq))
        (by simpa [encPairs] using hne)
  | cons kv m' ih =>
      obtain ⟨k, v⟩ := kv
      intro fuel q hq hne
      cases fuel with
      | zero => exact scanGo_zero _
      | succ fuel =>
          obtain ⟨⟨hC, hP⟩, hk⟩ := H (k, v) (List.mem_cons_self _ _)
          rw [show ((k, v) :: m').length = m'.length + 1 from rfl]
          have hq' : ListPre q ((43 :: k ++ [13, 10]) ++ (encodeFrame v ++ encPairs m')) := by
            simpa [encPairs] using hq
          have hne' : q ≠ (43 :: k ++ [13, 10]) ++ (encodeFrame v ++ encPairs m') := by
            simpa [encPairs] using hne
          have hz : ∀ z : List Nat, ListPre z (encodeFrame v ++ encPairs m') →
              z ≠ encodeFrame v ++ encPairs m' →
              scanGo (fuel + 1) (.pairs (m'.length + 1) (43 :: (k ++ 13 :: 10 :: z))) =
                .error .notComplete := by
            intro z hzpre hzne
            rw [scanGo_pairs_succ]
            simp only [findCrlf_append_crlf k hk, drop_key_seg]
            rcases listPre_append_cases z _ _ hzpre with h1 | ⟨z2, hz2, hz22⟩
            · by_cases hev : z = encodeFrame v
              · subst hev
                have hm' : encPairs m' ≠ [] := by
                  intro h0
                  exact hzne (by rw [h0, List.append_nil])
                rcases hC fuel [] with hnc | hok
                · rw [List.append_nil] at hnc
                  simp only [hnc]
                · rw [List.append_nil] at hok
                  simp only [hok]
                  rw [if_neg (show ¬(encodeFrame v).length < (encodeFrame v).length by omega)]
                  rw [List.drop_length]
                  simp only [ih (fun kv2 h2 => H kv2 (List.mem_cons_of_mem _ h2)) fuel []
                    ⟨encPairs m', rfl⟩ (fun h0 => hm' h0.symm)]
              · rcases hP fuel z h1 hev with hnc | hok
                · simp only [hnc]
                · simp only [hok]
                  rw [if_pos (listPre_len_lt z _ h1 hev)]
            · subst hz2
              have hz2ne : z2 ≠ encPairs m' := by
                intro h0
                exact hzne (by rw [h0])
              rcases hC fuel z2 with hnc | hok
              · simp only [hnc]
              · simp only [hok]
                rw [if_neg (show ¬(encodeFrame v ++ z2).length < (encodeFrame v).length by simp)]
                rw [List.drop_left _ _]
                simp only [ih (fun kv2 h2 => H kv2 (List.mem_cons_of_mem _ h2)) fuel z2
                  hz22 hz2ne]
          rcases listPre_append_cases q _ _ hq' with h1 | ⟨z, hzq, hz2⟩
          · by_cases hqa : q = 43 :: k ++ [13, 10]
            · have hzempty : ([] : List Nat) ≠ encodeFrame v ++ encPairs m' := by
                intro h0
                have h1 := h0.symm
                rw [List.append_eq_nil] at h1
                exact encodeFrame_ne_nil v h1.1
              have hq43 : q = 43 :: (k ++ 13 :: 10 :: ([] : List Nat)) := by
                simpa using hqa
              rw [hq43]
              exact hz [] ⟨encodeFrame v ++ encPairs m', rfl⟩ hzempty
            · rcases listPre_cons_cases q 43 (k ++ [13, 10]) (by simpa using h1) with
                hqnil | ⟨q', hq'eq, hq'pre⟩
              · rw [hqnil]
                exact scanGo_pairs_succ_nil fuel m'.length
              · subst hq'eq
                have hq'ne : q' ≠ k ++ [13, 10] := by
                  intro h0
                  exact hqa (by rw [h0]; simp)
                have hfree := pre_crlf_free k q' hk hq'pre hq'ne
                rw [scanGo_pairs_succ]
                simp only [hfree]
          · subst hzq
            have hzne : z ≠ encodeFrame v ++ encPairs m' := by
              intro h0
              exact hne' (by rw [h0])
            have hsh : (43 :: k ++ [13, 10]) ++ z = 43 :: (k ++ 13 :: 10 :: z) := by simp
            rw [hsh]
            exact hz z hz2 hzne

theorem intRepr_crlfFree (i : Int) : findCrlf (intRepr i) = none := by
  unfold intRepr
  by_cases h : i < 0
  · rw [if_pos h]
    refine crlfFree_cons 45 _ (digits_crlfFree _ (natDigits_spec _).1) ?_
    rintro ⟨h45, _⟩
    omega
  · rw [if_neg h]
    exact digits_crlfFree _ (natDigits_spec _).1

theorem drop_header (tag : Nat) (nd X : List Nat) :
    (tag :: (nd ++ 13 :: 10 :: X)).drop (nd.length + 1 + 2) = X := by
  have hsh : tag :: (nd ++ 13 :: 10 :: X) = (tag :: nd ++ [13, 10]) ++ X := by simp
  have hlen : nd.length + 1 + 2 = (tag :: nd ++ [13, 10]).length := by
    simp
    try omega
  rw [hsh, hlen]
  exact List.drop_left _ _

theorem scan_simple_shape (b : Nat) (hb : b = 43 ∨ b = 45 ∨ b = 58 ∨ b = 44)
    (s : List Nat) (hs : findCrlf s = none) :
    (∀ (fuel : Nat) (rest : List Nat),
        scanGo fuel (.one ((b :: s ++ [13, 10]) ++ rest)) = .error .notComplete ∨
        scanGo fuel (.one ((b :: s ++ [13, 10]) ++ rest)) = .ok (b :: s ++ [13, 10]).length) ∧
    (∀ (fuel : Nat) (p : List Nat), ListPre p (b :: s ++ [13, 10]) → p ≠ b :: s ++ [13, 10] →
        scanGo fuel (.one p) = .error .notComplete ∨
        scanGo fuel (.one p) = .ok (b :: s ++ [13, 10]).length) := by
  constructor
  · intro fuel rest
    cases fuel with
    | zero => exact Or.inl (scanGo_zero _)
    | succ fuel =>
        have hsh : (b :: s ++ [13, 10]) ++ rest = b :: (s ++ 13 :: 10 :: rest) := by simp
        rw [hsh, scanGo_one_simple fuel b hb]
        simp only [findCrlf_append_crlf s hs]
        refine Or.inr ?_
        have hlen2 : (b :: s ++ [13, 10]).length = 1 + s.length + 2 := by
          simp
          try omega
        rw [hlen2]
  · intro fuel p hp hne
    cases fuel with
    | zero => exact Or.inl (scanGo_zero _)
    | succ fuel =>
        rcases listPre_cons_cases p b (s ++ [13, 10]) (by simpa using hp) with
          hnil | ⟨q, hq, hq2⟩
        · rw [hnil]
          exact Or.inl (scanGo_one_nil fuel)
        · subst hq
          have hqne : q ≠ s ++ [13, 10] := fun h0 => hne (by simp [h0])
          have hfree := pre_crlf_free s q hs hq2 hqne
          refine Or.inl ?_
          rw [scanGo_one_simple fuel b hb]
          simp only [hfree]

theorem scan_null_shape : ScanC .null ∧ ScanP .null := by
  constructor
  · intro fuel rest
    cases fuel with
    | zero => exact Or.inl (scanGo_zero _)
    | succ fuel =>
        refine Or.inr ?_
        have hsh : encodeFrame .null ++ rest = 95 :: (13 :: 10 :: rest) := by
          simp [encodeFrame]
        rw [hsh, scanGo_one_null]
        rfl
  · intro fuel p hp hne
    cases fuel with
    | zero => exact Or.inl (scanGo_zero _)
    | succ fuel =>
        rcases listPre_cons_cases p 95 [13, 10] (by simpa [encodeFrame] using hp) with
          hnil | ⟨q, hq, hq2⟩
        · rw [hnil]
          exact Or.inl (scanGo_one_nil fuel)
        · subst hq
          rw [scanGo_one_null]
          exact Or.inr rfl

theorem scan_bool_shape (b : Bool) : ScanC (.boolean b) ∧ ScanP (.boolean b) := by
  have henc : encodeFrame (.boolean b) = 35 :: (if b then 116 else 102) :: [13, 10] := by
    cases b <;> simp [encodeFrame]
  constructor
  · intro fuel rest
    cases fuel with
    | zero => exact Or.inl (scanGo_zero _)
    | succ fuel =>
        refine Or.inr ?_
        have hsh : encodeFrame (.boolean b) ++ rest
            = 35 :: ((if b then 116 else 102) :: 13 :: 10 :: rest) := by
          rw [henc]
          simp
        rw [hsh, scanGo_one_bool, henc]
        rfl
  · intro fuel p hp hne
    cases fuel with
    | zero => exact Or.inl (scanGo_zero _)
    | succ fuel =>
        rw [henc] at hp
        rcases listPre_cons_cases p 35 _ hp with hnil | ⟨q, hq, hq2⟩
        · rw [hnil]
          exact Or.inl (scanGo_one_nil fuel)
        · subst hq
          rw [scanGo_one_bool, henc]
          exact Or.inr rfl

theorem scan_bulkNone_shape : ScanC (.bulkString none) ∧ ScanP (.bulkString none) := by
  have henc : encodeFrame (.bulkString none) = [36, 45, 49] ++ 13 :: 10 :: [] := by
    simp [encodeFrame]
  have hfree : findCrlf [36, 45, 49] = none := by decide
  constructor
  · intro fuel rest
    cases fuel with
    | zero => exact Or.inl (scanGo_zero _)
    | succ fuel =>
        refine Or.inr ?_
        have hsh : encodeFrame (.bulkString none) ++ rest
            = 36 :: (45 :: 49 :: 13 :: 10 :: rest) := by
          rw [henc]
          simp
        rw [hsh, scanGo_one_dollar]
        have hpl : parseLenIsize (36 :: 45 :: 49 :: 13 :: 10 :: rest) 36 = .ok (3, -1) :=
          parseLenIsize_neg1 36 rest
        simp only [hpl]
        rw [if_pos trivial, henc]
        rfl
  · intro fuel p hp hne
    cases fuel with
    | zero => exact Or.inl (scanGo_zero _)
    | succ fuel =>
        rw [henc] at hp hne
        rcases pre_header_cases [36, 45, 49] [] p hfree hp with hf | ⟨q, hq, hq2⟩
        · rcases listPre_cons_cases p 36 _ (by simpa using hp) with hnil | ⟨q, hq, _⟩
          · rw [hnil]
            exact Or.inl (scanGo_one_nil fuel)
          · subst hq
            refine Or.inl ?_
            rw [scanGo_one_dollar]
            simp only [parseLenIsize_nc _ 36 hf]
        · rw [listPre_nil_right q hq2] at hq
          simp at hq
          exact absurd (by simp [hq]) hne

theorem scan_arrayNone_shape : ScanC (.array none) ∧ ScanP (.array none) := by
  have henc : encodeFrame (.array none) = [42, 45, 49] ++ 13 :: 10 :: [] := by
    simp [encodeFrame]
  have hfree : findCrlf [42, 45, 49] = none := by decide
  constructor
  · intro fuel rest
    cases fuel with
    | zero => exact Or.inl (scanGo_zero _)
    | succ fuel =>
        refine Or.inr ?_
        have hsh : encodeFrame (.array none) ++ rest
            = 42 :: (45 :: 49 :: 13 :: 10 :: rest) := by
          rw [henc]
          simp
        rw [hsh, scanGo_one_star]
        have hpl : parseLenIsize (42 :: 45 :: 49 :: 13 :: 10 :: rest) 42 = .ok (3, -1) :=
          parseLenIsize_neg1 42 rest
        simp only [hpl]
        rw [if_pos trivial, henc]
        rfl
  · intro fuel p hp hne
    cases fuel with
    | zero => exact Or.inl (scanGo_zero _)
    | succ fuel =>
        rw [henc] at hp hne
        rcases pre_header_cases [42, 45, 49] [] p hfree hp with hf | ⟨q, hq, hq2⟩
        · rcases listPre_cons_cases p 42 _ (by simpa using hp) with hnil | ⟨q, hq, _⟩
          · rw [hnil]
            exact Or.inl (scanGo_one_nil fuel)
          · subst hq
            refine Or.inl ?_
            rw [scanGo_one_star]
            simp only [parseLenIsize_nc _ 42 hf]
        · rw [listPre_nil_right q hq2] at hq
          simp at hq
          exact absurd (by simp [hq]) hne

theorem scan_bulkSome_shape (d : List Nat) (hd : d.length ≤ maxI64) :
    ScanC (.bulkString (some d)) ∧ ScanP (.bulkString (some d)) := by
  have henc : encodeFrame (.bulkString (some d))
      = 36 :: (natDigits d.length ++ 13 :: 10 :: (d ++ [13, 10])) := by
    simp [encodeFrame, crlf]
  have hlenenc : (encodeFrame (.bulkString (some d))).length
      = (natDigits d.length).length + 1 + 2 + d.length + 2 := by
    rw [henc]
    simp
    omega
  constructor
  · intro fuel rest
    cases fuel with
    | zero => exact Or.inl (scanGo_zero _)
    | succ fuel =>
        refine Or.inr ?_
        have hsh : encodeFrame (.bulkString (some d)) ++ rest
            = 36 :: (natDigits d.length ++ 13 :: 10 :: ((d ++ [13, 10]) ++ rest)) := by
          rw [henc]
          simp
        rw [hsh, scanGo_one_dollar]
        simp only [parseLenIsize_complete 36 d.length ((d ++ [13, 10]) ++ rest) hd]
        rw [if_neg (show ¬((d.length : Nat) : Int) = -1 by omega)]
        rw [hlenenc]
        have ht : ((d.length : Nat) : Int).toNat = d.length := by omega
        rw [ht]
  · intro fuel p hp hne
    cases fuel with
    | zero => exact Or.inl (scanGo_zero _)
    | succ fuel =>
        rw [henc] at hp hne
        rcases pre_header_cases (36 :: natDigits d.length) (d ++ [13, 10]) p
            (tag_digits_crlfFree 36 d.length) (by simpa using hp) with hf | ⟨q, hq, hq2⟩
        · rcases listPre_cons_cases p 36 _ hp with hnil | ⟨q, hq, _⟩
          · rw [hnil]
            exact Or.inl (scanGo_one_nil fuel)
          · subst hq
            refine Or.inl ?_
            rw [scanGo_one_dollar]
            simp only [parseLenIsize_nc _ 36 hf]
        · subst hq
          refine Or.inr ?_
          have hsh2 : (36 :: natDigits d.length) ++ 13 :: 10 :: q
              = 36 :: (natDigits d.length ++ 13 :: 10 :: q) := by simp
          rw [hsh2, scanGo_one_dollar]
          simp only [parseLenIsize_complete 36 d.length q hd]
          rw [if_neg (show ¬((d.length : Nat) : Int) = -1 by omega)]
          rw [hlenenc]
          have ht : ((d.length : Nat) : Int).toNat = d.length := by omega
          rw [ht]

theorem scan_arraySome_shape (fs : List RespFrame) (hmax : fs.length ≤ maxI64)
    (hmem : ∀ g ∈ fs, ScanC g ∧ ScanP g) :
    ScanC (.array (some fs)) ∧ ScanP (.array (some fs)) := by
  have henc : encodeFrame (.array (some fs))
      = 42 :: (natDigits fs.length ++ 13 :: 10 :: encList fs) := by
    simp [encodeFrame, crlf, encList]
  have hlenenc : (encodeFrame (.array (some fs))).length
      = (natDigits fs.length).length + 1 + 2 + (encList fs).length := by
    rw [henc]
    simp
    omega
  have htN : ((fs.length : Nat) : Int).toNat = fs.length := by omega
  constructor
  · intro fuel rest
    cases fuel with
    | zero => exact Or.inl (scanGo_zero _)
    | succ fuel =>
        have hsh : encodeFrame (.array (some fs)) ++ rest
            = 42 :: (natDigits fs.length ++ 13 :: 10 :: (encList fs ++ rest)) := by
          rw [henc]
          simp
        rw [hsh, scanGo_one_star]
        simp only [parseLenIsize_complete 42 fs.length (encList fs ++ rest) hmax]
        rw [if_neg (show ¬((fs.length : Nat) : Int) = -1 by omega)]
        rw [drop_header 42 (natDigits fs.length) (encList fs ++ rest), htN]
        rcases scanMany_complete fs (fun g hg => (hmem g hg).1) fuel rest with hnc | hok
        · refine Or.inl ?_
          simp only [hnc]
        · refine Or.inr ?_
          simp only [hok]
          rw [hlenenc]
  · intro fuel p hp hne
    cases fuel with
    | zero => exact Or.inl (scanGo_zero _)
    | succ fuel =>
        rw [henc] at hp hne
        rcases pre_header_cases (42 :: natDigits fs.length) (encList fs) p
            (tag_digits_crlfFree 42 fs.length) (by simpa using hp) with hf | ⟨q, hq, hq2⟩
        · rcases listPre_cons_cases p 42 _ hp with hnil | ⟨q, hq, _⟩
          · rw [hnil]
            exact Or.inl (scanGo_one_nil fuel)
          · subst hq
            refine Or.inl ?_
            rw [scanGo_one_star]
            simp only [parseLenIsize_nc _ 42 hf]
        · subst hq
          have hqne : q ≠ encList fs := by
            intro h0
            exact hne (by simp [h0])
          refine Or.inl ?_
          have hsh2 : (42 :: natDigits fs.length) ++ 13 :: 10 :: q
              = 42 :: (natDigits fs.length ++ 13 :: 10 :: q) := by simp
          rw [hsh2, scanGo_one_star]
          simp only [parseLenIsize_complete 42 fs.length q hmax]
          rw [if_neg (show ¬((fs.length : Nat) : Int) = -1 by omega)]
          rw [drop_header 42 (natDigits fs.length) q, htN]
          simp only [scanMany_pre fs hmem fuel q hq2 hqne]

theorem scan_map_shape (m : List (List Nat × RespFrame)) (hmax : 2 * m.length ≤ maxI64)
    (hne0 : m.length ≠ 0)
    (hmem : ∀ kv ∈ m, (ScanC kv.2 ∧ ScanP kv.2) ∧ findCrlf kv.1 = none) :
    ScanC (.map m) ∧ ScanP (.map m) := by
  have henc : encodeFrame (.map m)
      = 37 :: (natDigits (2 * m.length) ++ 13 :: 10 :: encPairs m) := by
    simp [encodeFrame, crlf]
  have hlenenc : (encodeFrame (.map m)).length
      = (natDigits (2 * m.length)).length + 1 + 2 + (encPairs m).length := by
    rw [henc]
    simp
    omega
  have hcond : ¬(((2 * m.length : Nat) : Int) ≤ 0 ∨
      ¬ (2 : Int) ∣ ((2 * m.length : Nat) : Int)) := by
    push_cast
    refine not_or.mpr ⟨?_, ?_⟩
    · have : 0 < m.length := Nat.pos_of_ne_zero hne0
      omega
    · exact not_not_intro ⟨(m.length : Int), by ring⟩
  have hdivN : ((((2 * m.length : Nat) : Int)) / 2).toNat = m.length := by
    have h2 : ((2 * m.length : Nat) : Int) = 2 * (m.length : Int) := by push_cast; ring
    rw [h2, Int.mul_ediv_cancel_left _ (by norm_num : (2 : Int) ≠ 0)]
    omega
  constructor
  · intro fuel rest
    cases fuel with
    | zero => exact Or.inl (scanGo_zero _)
    | succ fuel =>
        have hsh : encodeFrame (.map m) ++ rest
            = 37 :: (natDigits (2 * m.length) ++ 13 :: 10 :: (encPairs m ++ rest)) := by
          rw [henc]
          simp
        rw [hsh, scanGo_one_pct]
        simp only [parseLenIsize_complete 37 (2 * m.length) (encPairs m ++ rest) hmax]
        rw [if_neg hcond]
        rw [drop_header 37 (natDigits (2 * m.length)) (encPairs m ++ rest), hdivN]
        rcases scanPairs_complete m (fun kv hkv => ⟨((hmem kv hkv).1).1, (hmem kv hkv).2⟩)
            fuel rest with hnc | hok
        · refine Or.inl ?_
          simp only [hnc]
        · refine Or.inr ?_
          simp only [hok]
          rw [hlenenc]
  · intro fuel p hp hne
    cases fuel with
    | zero => exact Or.inl (scanGo_zero _)
    | succ fuel =>
        rw [henc] at hp hne
        rcases pre_header_cases (37 :: natDigits (2 * m.length)) (encPairs m) p
            (tag_digits_crlfFree 37 (2 * m.length)) (by simpa using hp) with hf | ⟨q, hq, hq2⟩
        · rcases listPre_cons_cases p 37 _ hp with hnil | ⟨q, hq, _⟩
          · rw [hnil]
            exact Or.inl (scanGo_one_nil fuel)
          · subst hq
            refine Or.inl ?_
            rw [scanGo_one_pct]
            simp only [parseLenIsize_nc _ 37 hf]
        · subst hq
          have hqne : q ≠ encPairs m := by
            intro h0
            exact hne (by simp [h0])
          refine Or.inl ?_
          have hsh2 : (37 :: natDigits (2 * m.length)) ++ 13 :: 10 :: q
              = 37 :: (natDigits (2 * m.length) ++ 13 :: 10 :: q) := by simp
          rw [hsh2, scanGo_one_pct]
          simp only [parseLenIsize_complete 37 (2 * m.length) q hmax]
          rw [if_neg hcond]
          rw [drop_header 37 (natDigits (2 * m.length)) q, hdivN]
          simp only [scanPairs_pre m hmem fuel q hq2 hqne]

/-- Every valid frame's encoding is scanned correctly: a buffer starting
with the encoding scans to exactly the encoding's length, and a strict
prefix scans to `NotComplete` or to a length exceeding the prefix. -/
theorem scanGood : ∀ (N : Nat) (f : RespFrame), (encodeFrame f).length ≤ N →
    validFrame f = true → ScanC f ∧ ScanP f := by
  intro N
  induction N using Nat.strong_induction_on with
  | _ N ih =>
    intro f hlen hval
    cases f with
    | simpleString s =>
        have hs : findCrlf s = none := by simpa [validFrame] using hval
        exact scan_simple_shape 43 (Or.inl rfl) s hs
    | simpleError s =>
        have hs : findCrlf s = none := by simpa [validFrame] using hval
        exact scan_simple_shape 45 (Or.inr (Or.inl rfl)) s hs
    | integer i =>
        exact scan_simple_shape 58 (Or.inr (Or.inr (Or.inl rfl))) (intRepr i)
          (intRepr_crlfFree i)
    | double tok =>
        have hs : findCrlf tok = none := by simpa [validFrame] using hval
        exact scan_simple_shape 44 (Or.inr (Or.inr (Or.inr rfl))) tok hs
    | null => exact scan_null_shape
    | boolean b => exact scan_bool_shape b
    | bulkString b =>
        cases b with
        | none => exact scan_bulkNone_shape
        | some d =>
            have hd : d.length ≤ maxI64 := by simpa [validFrame] using hval
            exact scan_bulkSome_shape d hd
    | array a =>
        cases a with
        | none => exact scan_arrayNone_shape
        | some fs =>
            have hvl : fs.length ≤ maxI64 ∧ validList fs = true := by
              simpa [validFrame] using hval
            have h1 := (natDigits_spec fs.length).2.1
            have h2 : 1 ≤ (natDigits fs.length).length := by
              cases hnd : natDigits fs.length with
              | nil => exact absurd hnd h1
              | cons x l => simp
            have hlen4 : (encList fs).length + 4 ≤ (encodeFrame (.array (some fs))).length := by
              simp [encodeFrame, crlf]
              omega
            have hmem : ∀ g ∈ fs, ScanC g ∧ ScanP g := by
              intro g hg
              have hgl := encList_mem_le g fs hg
              exact ih (encodeFrame g).length (by omega) g (le_refl _)
                (validList_mem fs hvl.2 g hg)
            exact scan_arraySome_shape fs hvl.1 hmem
    | map m =>
        have hvm : (2 * m.length ≤ maxI64 ∧ m.length ≠ 0) ∧ validPairs m = true := by
          simpa [validFrame, and_assoc] using hval
        have h1 := (natDigits_spec (2 * m.length)).2.1
        have h2 : 1 ≤ (natDigits (2 * m.length)).length := by
          cases hnd : natDigits (2 * m.length) with
          | nil => exact absurd hnd h1
          | cons x l => simp
        have hlen4 : (encPairs m).length + 4 ≤ (encodeFrame (.map m)).length := by
          simp [encodeFrame, crlf]
          omega
        have hmem : ∀ kv ∈ m, (ScanC kv.2 ∧ ScanP kv.2) ∧ findCrlf kv.1 = none := by
          intro kv hkv
          obtain ⟨hk, hv⟩ := validPairs_mem m hvm.2 kv hkv
          have hgl : (encodeFrame kv.2).length ≤ (encPairs m).length := by
            obtain ⟨k0, v0⟩ := kv
            exact encPairs_mem_le k0 v0 m hkv
          exact ⟨ih (encodeFrame kv.2).length (by omega) kv.2 (le_refl _) hv, hk⟩
        exact scan_map_shape m hvm.1.1 hvm.1.2 hmem

/-! ### Decoder unfolding equations and the incomplete-input theorem -/

theorem decodeGo_one_nil (fuel : Nat) :
    decodeGo (fuel + 1) (.one []) = (.error .notComplete, []) := rfl

theorem decodeGo_one_simple_nc (fuel b : Nat) (hb : b = 43 ∨ b = 45 ∨ b = 58 ∨ b = 44)
    (rest : List Nat) (h : findCrlf rest = none) :
    decodeGo (fuel + 1) (.one (b :: rest)) = (.error .notComplete, b :: rest) := by
  rcases hb with h1 | h1 | h1 | h1 <;> subst h1 <;> simp [decodeGo, h]

theorem decodeGo_one_null_short (fuel : Nat) (rest : List Nat)
    (h : (95 :: rest).length < 3) :
    decodeGo (fuel + 1) (.one (95 :: rest)) = (.error .notComplete, 95 :: rest) := by
  have hsh : decodeGo (fuel + 1) (.one (95 :: rest)) =
      (if (95 :: rest).length < 3 then
        ((.error .notComplete : Except RespError DecRes), 95 :: rest)
      else if (95 :: rest).take 3 = [95, 13, 10] then (.ok (.fr .null), (95 :: rest).drop 3)
      else (.error .invalidFrame, 95 :: rest)) := rfl
  rw [hsh, if_pos h]

theorem decodeGo_one_bool_short (fuel : Nat) (rest : List Nat)
    (h : (35 :: rest).length < 4) :
    decodeGo (fuel + 1) (.one (35 :: rest)) = (.error .notComplete, 35 :: rest) := by
  have hsh : decodeGo (fuel + 1) (.one (35 :: rest)) =
      (if (35 :: rest).length < 4 then
        ((.error .notComplete : Except RespError DecRes), 35 :: rest)
      else if (35 :: rest).take 4 = [35, 116, 13, 10] then
        (.ok (.fr (.boolean true)), (35 :: rest).drop 4)
      else if (35 :: rest).take 4 = [35, 102, 13, 10] then
        (.ok (.fr (.boolean false)), (35 :: rest).drop 4)
      else (.error .invalidFrame, 35 :: rest)) := rfl
  rw [hsh, if_pos h]

theorem decodeGo_one_dollar (fuel : Nat) (rest : List Nat) :
    decodeGo (fuel + 1) (.one (36 :: rest)) =
      match BulkString_decode (36 :: rest) with
      | (.error e, buf') => (.error e, buf')
      | (.ok d, buf') => (.ok (.fr (.bulkString d)), buf') := rfl

theorem decodeGo_one_star (fuel : Nat) (rest : List Nat) :
    decodeGo (fuel + 1) (.one (42 :: rest)) =
      match parseLenIsize (42 :: rest) 42 with
      | .error e => (.error e, 42 :: rest)
      | .ok (e, len) =>
          if len = -1 then (.ok (.fr (.array none)), (42 :: rest).drop (e + 2))
          else
            match scanGo fuel (.many len.toNat ((42 :: rest).drop (e + 2))) with
            | .error e2 => (.error e2, 42 :: rest)
            | .ok m =>
                if (42 :: rest).length < e + 2 + m then (.error .notComplete, 42 :: rest)
                else decodeGo fuel (.elems len.toNat [] ((42 :: rest).drop (e + 2))) := rfl

theorem decodeGo_one_pct (fuel : Nat) (rest : List Nat) :
    decodeGo (fuel + 1) (.one (37 :: rest)) =
      match parseLenIsize (37 :: rest) 37 with
      | .error e => (.error e, 37 :: rest)
      | .ok (e, len) =>
          if len ≤ 0 ∨ ¬ 2 ∣ len then (.error .invalidFrame, 37 :: rest)
          else
            match scanGo fuel (.pairs (len / 2).toNat ((37 :: rest).drop (e + 2))) with
            | .error e2 => (.error e2, 37 :: rest)
            | .ok m =>
                if (37 :: rest).length < e + 2 + m then (.error .notComplete, 37 :: rest)
                else decodeGo fuel (.kvs (len / 2).toNat [] ((37 :: rest).drop (e + 2))) := rfl

theorem decode_simple_pre (b : Nat) (hb : b = 43 ∨ b = 45 ∨ b = 58 ∨ b = 44)
    (s p : List Nat) (hs : findCrlf s = none) (hp : ListPre p (b :: s ++ [13, 10]))
    (hne : p ≠ b :: s ++ [13, 10]) :
    decodeGo (p.length + 1) (.one p) = (.error .notComplete, p) := by
  rcases listPre_cons_cases p b (s ++ [13, 10]) (by simpa using hp) with hnil | ⟨q, hq, hq2⟩
  · rw [hnil]
    exact decodeGo_one_nil _
  · subst hq
    have hqne : q ≠ s ++ [13, 10] := fun h0 => hne (by simp [h0])
    exact decodeGo_one_simple_nc _ b hb q (pre_crlf_free s q hs hq2 hqne)

/-- C2: a strict prefix of any valid frame's canonical encoding decodes
(with the direct strategy) to `NotComplete`, and the buffer is returned
byte-for-byte unchanged. -/
theorem c2_incomplete_leaves_buffer (f : RespFrame) (p : List Nat)
    (hv : validFrame f = true) (hp : ListPre p (encodeFrame f)) (hne : p ≠ encodeFrame f) :
    RespFrame_decode p = (.error .notComplete, p) := by
  unfold RespFrame_decode
  cases f with
  | simpleString s =>
      have hs : findCrlf s = none := by simpa [validFrame] using hv
      exact decode_simple_pre 43 (Or.inl rfl) s p hs hp hne
  | simpleError s =>
      have hs : findCrlf s = none := by simpa [validFrame] using hv
      exact decode_simple_pre 45 (Or.inr (Or.inl rfl)) s p hs hp hne
  | integer i =>
      exact decode_simple_pre 58 (Or.inr (Or.inr (Or.inl rfl))) (intRepr i) p
        (intRepr_crlfFree i) hp hne
  | double tok =>
      have hs : findCrlf tok = none := by simpa [validFrame] using hv
      exact decode_simple_pre 44 (Or.inr (Or.inr (Or.inr rfl))) tok p hs hp hne
  | null =>
      have hlt : p.length < 3 := by
        have := listPre_len_lt p _ hp hne
        simpa [encodeFrame] using this
      rcases listPre_cons_cases p 95 [13, 10] (by simpa [encodeFrame] using hp) with
        hnil | ⟨q, hq, hq2⟩
      · rw [hnil]
        exact decodeGo_one_nil _
      · subst hq
        exact decodeGo_one_null_short _ q hlt
  | boolean b =>
      have henc : encodeFrame (.boolean b) = 35 :: (if b then 116 else 102) :: [13, 10] := by
        cases b <;> simp [encodeFrame]
      have hlt : p.length < 4 := by
        have := listPre_len_lt p _ hp hne
        rw [henc] at this
        simpa using this
      rw [henc] at hp
      rcases listPre_cons_cases p 35 _ hp with hnil | ⟨q, hq, hq2⟩
      · rw [hnil]
        exact decodeGo_one_nil _
      · subst hq
        exact decodeGo_one_bool_short _ q hlt
  | bulkString b =>
      cases b with
      | none =>
          have henc : encodeFrame (.bulkString none) = [36, 45, 49] ++ 13 :: 10 :: [] := by
            simp [encodeFrame]
          rw [henc] at hp hne
          rcases pre_header_cases [36, 45, 49] [] p (by decide) hp with hf | ⟨q, hq, hq2⟩
          · rcases listPre_cons_cases p 36 _ (by simpa using hp) with hnil | ⟨q, hq, _⟩
            · rw [hnil]
              exact decodeGo_one_nil _
            · subst hq
              rw [decodeGo_one_dollar]
              unfold BulkString_decode
              simp only [parseLenIsize_nc _ 36 hf]
          · rw [listPre_nil_right q hq2] at hq
            simp at hq
            exact absurd (by simp [hq]) hne
      | some d =>
          have hd : d.length ≤ maxI64 := by simpa [validFrame] using hv
          have henc : encodeFrame (.bulkString (some d))
              = 36 :: (natDigits d.length ++ 13 :: 10 :: (d ++ [13, 10])) := by
            simp [encodeFrame, crlf]
          rw [henc] at hp hne
          rcases pre_header_cases (36 :: natDigits d.length) (d ++ [13, 10]) p
              (tag_digits_crlfFree 36 d.length) (by simpa using hp) with hf | ⟨q, hq, hq2⟩
          · rcases listPre_cons_cases p 36 _ hp with hnil | ⟨q, hq, _⟩
            · rw [hnil]
              exact decodeGo_one_nil _
            · subst hq
              rw [decodeGo_one_dollar]
              unfold BulkString_decode
              simp only [parseLenIsize_nc _ 36 hf]
          · subst hq
            have hqne : q ≠ d ++ [13, 10] := by
              intro h0
              exact hne (by simp [h0])
            have hsh2 : (36 :: natDigits d.length) ++ 13 :: 10 :: q
                = 36 :: (natDigits d.length ++ 13 :: 10 :: q) := by simp
            rw [hsh2, decodeGo_one_dollar]
            unfold BulkString_decode
            simp only [parseLenIsize_complete 36 d.length q hd]
            rw [if_neg (show ¬((d.length : Nat) : Int) = -1 by omega)]
            have hqlen : q.length < d.length + 2 := by
              have := listPre_len_lt q _ hq2 hqne
              simpa using this
            have hdrop2 : (36 :: (natDigits d.length ++ 13 :: 10 :: q)).drop
                ((natDigits d.length).length + 1 + 2) = q := drop_header 36 _ q
            simp only [hdrop2]
            rw [if_pos (by
              have ht : ((d.length : Nat) : Int).toNat = d.length := by omega
              rw [ht]
              exact hqlen)]
  | array a =>
      cases a with
      | none =>
          have henc : encodeFrame (.array none) = [42, 45, 49] ++ 13 :: 10 :: [] := by
            simp [encodeFrame]
          rw [henc] at hp hne
          rcases pre_header_cases [42, 45, 49] [] p (by decide) hp with hf | ⟨q, hq, hq2⟩
          · rcases listPre_cons_cases p 42 _ (by simpa using hp) with hnil | ⟨q, hq, _⟩
            · rw [hnil]
              exact decodeGo_one_nil _
            · subst hq
              rw [decodeGo_one_star]
              simp only [parseLenIsize_nc _ 42 hf]
          · rw [listPre_nil_right q hq2] at hq
            simp at hq
            exact absurd (by simp [hq]) hne
      | some fs =>
          have hvl : fs.length ≤ maxI64 ∧ validList fs = true := by
            simpa [validFrame] using hv
          have hmem : ∀ g ∈ fs, ScanC g ∧ ScanP g := fun g hg =>
            scanGood (encodeFrame g).length g (le_refl _) (validList_mem fs hvl.2 g hg)
          have henc : encodeFrame (.array (some fs))
              = 42 :: (natDigits fs.length ++ 13 :: 10 :: encList fs) := by
            simp [encodeFrame, crlf, encList]
          rw [henc] at hp hne
          rcases pre_header_cases (42 :: natDigits fs.length) (encList fs) p
              (tag_digits_crlfFree 42 fs.length) (by simpa using hp) with hf | ⟨q, hq, hq2⟩
          · rcases listPre_cons_cases p 42 _ hp with hnil | ⟨q, hq, _⟩
            · rw [hnil]
              exact decodeGo_one_nil _
            · subst hq
              rw [decodeGo_one_star]
              simp only [parseLenIsize_nc _ 42 hf]
          · subst hq
            have hqne : q ≠ encList fs := by
              intro h0
              exact hne (by simp [h0])
            have hsh2 : (42 :: natDigits fs.length) ++ 13 :: 10 :: q
                = 42 :: (natDigits fs.length ++ 13 :: 10 :: q) := by simp
            rw [hsh2, decodeGo_one_star]
            simp only [parseLenIsize_complete 42 fs.length q hvl.1]
            rw [if_neg (show ¬((fs.length : Nat) : Int) = -1 by omega)]
            have hdrop2 : (42 :: (natDigits fs.length ++ 13 :: 10 :: q)).drop
                ((natDigits fs.length).length + 1 + 2) = q := drop_header 42 _ q
            simp only [hdrop2]
            have htN : ((fs.length : Nat) : Int).toNat = fs.length := by omega
            rw [htN]
            simp only [scanMany_pre fs hmem _ q hq2 hqne]
  | map m =>
      have hvm : (2 * m.length ≤ maxI64 ∧ m.length ≠ 0) ∧ validPairs m = true := by
        simpa [validFrame, and_assoc] using hv
      have hmem : ∀ kv ∈ m, (ScanC kv.2 ∧ ScanP kv.2) ∧ findCrlf kv.1 = none := by
        intro kv hkv
        obtain ⟨hk, hvv⟩ := validPairs_mem m hvm.2 kv hkv
        exact ⟨scanGood (encodeFrame kv.2).length kv.2 (le_refl _) hvv, hk⟩
      have hcond : ¬(((2 * m.length : Nat) : Int) ≤ 0 ∨
          ¬ (2 : Int) ∣ ((2 * m.length : Nat) : Int)) := by
        push_cast
        refine not_or.mpr ⟨?_, ?_⟩
        · have : 0 < m.length := Nat.pos_of_ne_zero hvm.1.2
          omega
        · exact not_not_intro ⟨(m.length : Int), by ring⟩
      have hdivN : ((((2 * m.length : Nat) : Int)) / 2).toNat = m.length := by
        have h2 : ((2 * m.length : Nat) : Int) = 2 * (m.length : Int) := by push_cast; ring
        rw [h2, Int.mul_ediv_cancel_left _ (by norm_num : (2 : Int) ≠ 0)]
        omega
      have henc : encodeFrame (.map m)
          = 37 :: (natDigits (2 * m.length) ++ 13 :: 10 :: encPairs m) := by
        simp [encodeFrame, crlf]
      rw [henc] at hp hne
      rcases pre_header_cases (37 :: natDigits (2 * m.length)) (encPairs m) p
          (tag_digits_crlfFree 37 (2 * m.length)) (by simpa using hp) with hf | ⟨q, hq, hq2⟩
      · rcases listPre_cons_cases p 37 _ hp with hnil | ⟨q, hq, _⟩
        · rw [hnil]
          exact decodeGo_one_nil _
        · subst hq
          rw [decodeGo_one_pct]
          simp only [parseLenIsize_nc _ 37 hf]
      · subst hq
        have hqne : q ≠ encPairs m := by
          intro h0
          exact hne (by simp [h0])
        have hsh2 : (37 :: natDigits (2 * m.length)) ++ 13 :: 10 :: q
            = 37 :: (natDigits (2 * m.length) ++ 13 :: 10 :: q) := by simp
        rw [hsh2, decodeGo_one_pct]
        simp only [parseLenIsize_complete 37 (2 * m.length) q hvm.1.1]
        rw [if_neg hcond]
        have hdrop2 : (37 :: (natDigits (2 * m.length) ++ 13 :: 10 :: q)).drop
            ((natDigits (2 * m.length)).length + 1 + 2) = q := drop_header 37 _ q
        simp only [hdrop2, hdivN]
        simp only [scanPairs_pre m hmem _ q hq2 hqne]

/-- Witness for `c2_incomplete_leaves_buffer` at the valid frame
`BulkString "hi"` and the 5-byte strict prefix `$2\r\nh` of its 8-byte
encoding. -/
theorem c2_incomplete_witness :
    validFrame (.bulkString (some [104, 105])) = true ∧
    RespFrame_decode [36, 50, 13, 10, 104] = (.error .notComplete, [36, 50, 13, 10, 104]) :=
  ⟨by decide,
    c2_incomplete_leaves_buffer (.bulkString (some [104, 105])) [36, 50, 13, 10, 104]
      (by decide) ⟨[105, 13, 10], by decide⟩ (by decide)⟩

end SimpleRedis
